import Mathlib

/-!
Verification of the ghaf-virtiofs-tools core (the virtiofs gate daemon, its
inotify watcher, the ClamAV scanner client, and the clamd vsock proxy) against
its natural-language specification.

The Rust sources are shallowly embedded: pure decision functions are
translated directly; stateful components (the watcher, the channel handler,
the sync pass, the proxy accept loop) are modelled as explicit state-passing
functions over simple data (association lists for file systems and tables,
lists of bytes for file content and socket traffic, naturals for clocks).
Filesystem effects (stat results, directory listings) that the Rust code
obtains from the kernel are supplied to the model as explicit inputs, so the
model is a function of the code plus an oracle describing the environment.
-/

-- =============================================================================
-- Generic association-list helpers (model of HashMap / filesystem lookup)
-- =============================================================================

/-- Lookup in an association list (first matching key wins). -/
def alookup {κ α : Type} [DecidableEq κ] : List (κ × α) → κ → Option α
  | [], _ => none
  | (k₀, v) :: t, k => if k₀ = k then some v else alookup t k

/-- Remove every binding of a key. -/
def aerase {κ α : Type} [DecidableEq κ] : List (κ × α) → κ → List (κ × α)
  | [], _ => []
  | (k₀, v) :: t, k => if k₀ = k then aerase t k else (k₀, v) :: aerase t k

/-- Insert or overwrite a binding. -/
def ainsert {κ α : Type} [DecidableEq κ] (l : List (κ × α)) (k : κ) (v : α) :
    List (κ × α) :=
  (k, v) :: aerase l k

-- =============================================================================
-- Vproxy: command filtering and INSTREAM limits (src/vproxy/main.rs)
-- =============================================================================

namespace VProxy

/-- Bytes written over a socket. -/
abbrev Bytes := List Nat

/-- ASCII bytes of a string constant. -/
def asciiBytes (s : String) : Bytes := s.toList.map Char.toNat

/-- Allowed ClamAV commands (enum Command in vproxy/main.rs). -/
inductive Command where
  | instream
  | ping
  | version
deriving DecidableEq, Repr

/-- The literal zINSTREAM terminated by the null byte. -/
def zInstreamTok : Bytes := [122, 73, 78, 83, 84, 82, 69, 65, 77, 0]

/-- The literal nINSTREAM terminated by the newline byte. -/
def nInstreamTok : Bytes := [110, 73, 78, 83, 84, 82, 69, 65, 77, 10]

/-- The literal zPING terminated by the null byte. -/
def zPingTok : Bytes := [122, 80, 73, 78, 71, 0]

/-- The literal nPING terminated by the newline byte. -/
def nPingTok : Bytes := [110, 80, 73, 78, 71, 10]

/-- The literal zVERSION terminated by the null byte. -/
def zVersionTok : Bytes := [122, 86, 69, 82, 83, 73, 79, 78, 0]

/-- The literal nVERSION terminated by the newline byte. -/
def nVersionTok : Bytes := [110, 86, 69, 82, 83, 73, 79, 78, 10]

/-- The six whitelisted command literals, delimiter included. -/
def allowedLiterals : List Bytes :=
  [zInstreamTok, nInstreamTok, zPingTok, nPingTok, zVersionTok, nVersionTok]

/-- A command delimiter byte: null or newline. -/
def isDelim (b : Nat) : Bool := b == 0 || b == 10

/-- Index of the first delimiter byte, if any
(buf.iter().position(..) in Command::parse). -/
def findDelim : Bytes → Option Nat
  | [] => none
  | b :: t => if isDelim b then some 0 else (findDelim t).map (· + 1)

/-- The bytes up to and including the first delimiter. -/
def delimPrefix (buf : Bytes) : Option Bytes :=
  (findDelim buf).map (fun i => buf.take (i + 1))

/-- Command::parse: match the bytes up to and including the first delimiter
against the six exact literals; return the command and its byte length. -/
def Command.parse (buf : Bytes) : Option (Command × Nat) :=
  match findDelim buf with
  | none => none
  | some i =>
    let tok := buf.take (i + 1)
    if tok = zInstreamTok ∨ tok = nInstreamTok then some (Command.instream, 10)
    else if tok = zPingTok ∨ tok = nPingTok then some (Command.ping, 6)
    else if tok = zVersionTok ∨ tok = nVersionTok then some (Command.version, 9)
    else none

/-- The rejection message written to the guest. -/
def errNotAllowed : Bytes := asciiBytes "ERROR: Command not allowed\n"

/-- What handle_connection decides from the assembled command buffer before any
contact with the scanner: on parse failure, or on a non-INSTREAM command with
extra bytes after the delimiter in the same buffer, it writes the rejection
message and returns (closing the connection) without opening the clamd
socket; otherwise it connects to clamd and forwards the command bytes. -/
structure ConnDecision where
  reply : Bytes
  clamdOpened : Bool
  accepted : Option Command
deriving DecidableEq, Repr

/-- Decision taken by handle_connection on the command buffer
(vproxy/main.rs lines 238-268). -/
def handleCommand (buf : Bytes) : ConnDecision :=
  match Command.parse buf with
  | none => ⟨errNotAllowed, false, none⟩
  | some (c, len) =>
    if c ≠ Command.instream ∧ buf.drop len ≠ [] then ⟨errNotAllowed, false, none⟩
    else ⟨[], true, some c⟩

/-- INSTREAM outcome: what was forwarded to clamd, what was written back to
the guest, and how the transfer ended. -/
inductive StreamVerdict where
  | completed
  | chunkTooBig
  | streamTooBig
  | disconnected
deriving DecidableEq, Repr

structure InstreamResult where
  verdict : StreamVerdict
  toClamd : Bytes
  toClient : Bytes
deriving DecidableEq, Repr

/-- Big-endian 32-bit chunk header. -/
def be32 (b0 b1 b2 b3 : Nat) : Nat := ((b0 * 256 + b1) * 256 + b2) * 256 + b3

/-- handle_instream (vproxy/main.rs lines 309-420) over the byte stream the
guest sends after the command: read a 4-byte big-endian header, enforce
max_chunk_size then max_stream_size BEFORE forwarding the header, forward the
header, stop on a zero-size chunk (then relay the scanner reply to the
guest), otherwise forward the payload and loop. Every error path returns
without writing anything to the guest: the error is only logged by the task
in main. Timeouts are real-time behaviour and are not modelled. Fuel bounds
the recursion; the top-level entry supplies enough for any input. -/
def runInstreamAux (maxChunk maxStream : Nat) (scannerReply : Bytes) :
    Nat → Nat → Bytes → Bytes → InstreamResult
  | 0, _, _, acc => ⟨StreamVerdict.disconnected, acc, []⟩
  | Nat.succ fuel, total, input, acc =>
    match input with
    | b0 :: b1 :: b2 :: b3 :: rest =>
      let size := be32 b0 b1 b2 b3
      if maxChunk < size then ⟨StreamVerdict.chunkTooBig, acc, []⟩
      else if maxStream < total + size then ⟨StreamVerdict.streamTooBig, acc, []⟩
      else if size = 0 then ⟨StreamVerdict.completed, acc ++ [b0, b1, b2, b3], scannerReply⟩
      else if rest.length < size then
        ⟨StreamVerdict.disconnected, (acc ++ [b0, b1, b2, b3]) ++ rest, []⟩
      else
        runInstreamAux maxChunk maxStream scannerReply fuel (total + size)
          (rest.drop size) ((acc ++ [b0, b1, b2, b3]) ++ rest.take size)
    | _ => ⟨StreamVerdict.disconnected, acc, []⟩

/-- Entry point: process a whole INSTREAM byte sequence from the guest. -/
def runInstream (maxChunk maxStream : Nat) (scannerReply : Bytes)
    (input : Bytes) : InstreamResult :=
  runInstreamAux maxChunk maxStream scannerReply (input.length + 1) 0 input []

/-- Default maximum single chunk size: 25 MiB. -/
def defaultMaxChunk : Nat := 25 * 1024 * 1024

/-- Default maximum total stream size: 100 MiB. -/
def defaultMaxStream : Nat := 100 * 1024 * 1024

-- =============================================================================
-- Vproxy: accept loop and the connection semaphore (main, lines 462-482)
-- =============================================================================

/-- Number of permits of the connection semaphore currently held. -/
structure ProxyState where
  active : Nat
deriving DecidableEq, Repr

/-- Semaphore::try_acquire_owned: succeeds only while fewer than max_connections
permits are out. -/
def tryAcquire (maxConn : Nat) (s : ProxyState) : Option ProxyState :=
  if s.active < maxConn then some ⟨s.active + 1⟩ else none

/-- drop(permit) at the end of the per-connection task. -/
def releasePermit (s : ProxyState) : ProxyState := ⟨s.active - 1⟩

/-- Outcome of one accept-loop iteration: either a task is spawned holding a
permit, or the permit acquisition fails, in which case the stream is dropped
with no bytes written and the loop continues with unchanged state. -/
structure AcceptResult where
  spawned : Bool
  replyToGuest : Bytes
  nextState : ProxyState
deriving DecidableEq, Repr

/-- One iteration of the accept loop for a newly accepted connection. -/
def acceptConnection (maxConn : Nat) (s : ProxyState) : AcceptResult :=
  match tryAcquire maxConn s with
  | some s₂ => ⟨true, [], s₂⟩
  | none => ⟨false, [], s⟩

end VProxy

-- =============================================================================
-- Scanner client: ClamAV response parsing (src/scanner.rs lines 138-161)
-- =============================================================================

namespace ScannerM

/-- Result of a virus scan (enum ScanResult in scanner.rs). -/
inductive ScanResult where
  | clean
  | infected (signature : List Char)
  | error
  | notFound
deriving DecidableEq, Repr

/-- str::ends_with over character lists. -/
def endsWithL (l suf : List Char) : Bool := suf.isSuffixOf l

/-- ASCII whitespace for str::trim. -/
def isWhite (c : Char) : Bool := c == ' ' || c == '\t' || c == '\n' || c == '\r'

/-- Remove leading and trailing characters satisfying p (str::trim_matches). -/
def trimBy (p : Char → Bool) (l : List Char) : List Char :=
  ((l.dropWhile p).reverse.dropWhile p).reverse

/-- The stripping done before parse_response is called
(trim_matches of the null byte, then trim, in send_fd_for_scan). -/
def stripResponse (raw : List Char) : List Char :=
  trimBy isWhite (trimBy (· == '\x00') raw)

/-- Indices at which sep occurs in l. -/
def sepPositions (sep l : List Char) : List Nat :=
  (List.range (l.length + 1)).filter (fun i => sep.isPrefixOf (l.drop i))

/-- str::rsplit_once: split at the LAST occurrence of sep. -/
def rsplitOnce (l sep : List Char) : Option (List Char × List Char) :=
  match (sepPositions sep l).getLast? with
  | none => none
  | some i => some (l.take i, l.drop (i + sep.length))

/-- str::trim_end_matches: repeatedly remove the suffix pat. -/
def trimEndMatchesAux (pat : List Char) : Nat → List Char → List Char
  | 0, l => l
  | Nat.succ fuel, l =>
    if pat ≠ [] ∧ pat.isSuffixOf l then
      trimEndMatchesAux pat fuel (l.take (l.length - pat.length))
    else l

def trimEndMatches (l pat : List Char) : List Char := trimEndMatchesAux pat l.length l

/-- The signature extracted on the FOUND branch of parse_response:
the segment after the last colon-space separator with trailing FOUND
suffixes removed, or the word unknown when no separator occurs. -/
def foundSignature (r : List Char) : List Char :=
  match rsplitOnce r (": ".toList) with
  | none => "unknown".toList
  | some (_, s) => trimEndMatches s (" FOUND".toList)

/-- ClamAVScanner::parse_response: an if-chain of ends_with tests. -/
def parseResponse (r : List Char) : ScanResult :=
  if endsWithL r ("OK".toList) then ScanResult.clean
  else if endsWithL r ("FOUND".toList) then ScanResult.infected (foundSignature r)
  else if endsWithL r ("ERROR".toList) then ScanResult.error
  else ScanResult.error

/-- The last whitespace-separated token of a line (used to state the claim,
which speaks of the trailing token). -/
def trailingToken (r : List Char) : List Char :=
  (r.reverse.takeWhile (fun c => ¬ isWhite c)).reverse

end ScannerM

-- =============================================================================
-- Gate: channel handler model (src/gate/daemon.rs)
-- =============================================================================

namespace Gate

/-- File content as bytes. -/
abbrev Content := List Nat

/-- A path as a list of components, relative to the channel base directory.
Rust Component::RootDir is unrepresentable in this component-list model;
Component::ParentDir is the component consisting of two dots. -/
abbrev FPath := List String

/-- The channel's file tree: path to content of the regular file there. -/
abbrev FS := List (FPath × Content)

/-- Action on infected files (util::InfectedAction). -/
inductive InfectedAction where
  | log
  | delete
  | quarantine
deriving DecidableEq, Repr

/-- The parts of ChannelConfig the handler consults per event. -/
structure Channel where
  producers : List String
  consumers : List String
  diodeProducers : List String
  scanningEnabled : Bool
  permissive : Bool
  infectedAction : InfectedAction
  ignoreFilePatterns : List String
  ignorePathPatterns : List String
deriving DecidableEq, Repr

/-- ChannelConfig::is_diode. -/
def Channel.isDiode (c : Channel) (p : String) : Bool :=
  c.diodeProducers.any (fun d => d == p)

/-- share/producer/relative, relative to the channel base. -/
def sharePath (p : String) (rel : FPath) : FPath := "share" :: p :: rel

/-- export/relative. -/
def exportPath (rel : FPath) : FPath := "export" :: rel

/-- quarantine/relative. -/
def quarantinePath (rel : FPath) : FPath := "quarantine" :: rel

/-- ChannelHandler::is_safe_relative_path: no parent components. -/
def isSafeRel (rel : FPath) : Bool := rel.all (fun comp => comp ≠ "..")

/-- Substring test (str::contains with a string pattern). -/
def containsSub (hay pat : List Char) : Bool :=
  (List.range (hay.length + 1)).any (fun i => pat.isPrefixOf (hay.drop i))

/-- The relative path rendered the way to_string_lossy renders it. -/
def joinPath (rel : FPath) : List Char := (String.intercalate "/" rel).toList

/-- ChannelHandler::should_ignore: any file pattern is a substring of the
filename, or any path pattern is a substring of the relative path. -/
def shouldIgnore (c : Channel) (rel : FPath) : Bool :=
  let filename := (rel.getLast?).getD ""
  c.ignoreFilePatterns.any (fun p => containsSub filename.toList p.toList)
    || c.ignorePathPatterns.any (fun p => containsSub (joinPath rel) p.toList)

/-- Result of a propagation: the updated tree and the destination paths that
were installed (each by atomic_reflink from the staged descriptor). -/
structure PropResult where
  fs : FS
  installed : List FPath
deriving Repr

/-- The producer loop of propagate_clean (daemon.rs lines 694-725), identical
in propagate_clean_from_file: skip the source and every diode producer; when
the source is a diode producer, also skip any destination that already
exists; otherwise install a clone of the staged bytes. -/
def propagateToProducers (c : Channel) (src : String) (rel : FPath)
    (staged : Content) : List String → FS → PropResult
  | [], fs => ⟨fs, []⟩
  | p :: rest, fs =>
    if p = src ∨ c.isDiode p then propagateToProducers c src rel staged rest fs
    else
      let dst := sharePath p rel
      if c.isDiode src ∧ (alookup fs dst).isSome then
        propagateToProducers c src rel staged rest fs
      else
        let r := propagateToProducers c src rel staged rest (ainsert fs dst staged)
        ⟨r.fs, dst :: r.installed⟩

/-- propagate_clean / propagate_clean_from_file: the producer loop followed by
the export install (only when consumers exist), with the same diode
ignore-existing check against the live tree. -/
def propagateClean (c : Channel) (fs : FS) (src : String) (rel : FPath)
    (staged : Content) : PropResult :=
  let r := propagateToProducers c src rel staged c.producers fs
  if c.consumers.isEmpty then r
  else
    let dst := exportPath rel
    if c.isDiode src ∧ (alookup r.fs dst).isSome then r
    else ⟨ainsert r.fs dst staged, dst :: r.installed⟩

/-- ChannelHandler::handle_infected: log leaves the tree alone; delete removes
the source; quarantine installs a clone of the staged bytes under
quarantine/ and then removes the source. -/
def handleInfected (c : Channel) (fs : FS) (src : String) (rel : FPath)
    (staged : Content) : FS :=
  match c.infectedAction with
  | InfectedAction.log => fs
  | InfectedAction.delete => aerase fs (sharePath src rel)
  | InfectedAction.quarantine =>
      aerase (ainsert fs (quarantinePath rel) staged) (sharePath src rel)

/-- Result of a Modified or Renamed event: the updated tree, the installed
destinations, the bytes pinned by the staging clone (or by the opened source
descriptor for renames), and the bytes handed to the scanner (none when no
scan happened). -/
structure ModResult where
  fs : FS
  installed : List FPath
  staged : Option Content
  scanned : Option Content
deriving Repr

/-- ChannelHandler::on_modified (daemon.rs lines 213-369). The event path is
share/src/rel; the prefix strip and traversal guard come first, then the
ignore patterns, then safe_open (modelled as lookup: a missing or non-regular
file is a silent drop). The staging clone pins the current content; empty
files and channels with scanning disabled propagate without a scan;
otherwise the STAGED bytes are scanned and the verdict drives propagation,
infection handling, or (permissive) propagation on error. The scanner
transport itself never fails in ClamAVScanner (all failures are mapped to
the error verdict), so scan is modelled as a total function on the bytes. -/
def onModified (c : Channel) (scan : Content → ScannerM.ScanResult) (fs : FS)
    (src : String) (rel : FPath) : ModResult :=
  if ¬ isSafeRel rel then ⟨fs, [], none, none⟩
  else if shouldIgnore c rel then ⟨fs, [], none, none⟩
  else
    match alookup fs (sharePath src rel) with
    | none => ⟨fs, [], none, none⟩
    | some content =>
      let staged := content
      if content.length = 0 then
        let r := propagateClean c fs src rel staged
        ⟨r.fs, r.installed, some staged, none⟩
      else if ¬ c.scanningEnabled then
        let r := propagateClean c fs src rel staged
        ⟨r.fs, r.installed, some staged, none⟩
      else
        match scan staged with
        | ScannerM.ScanResult.clean =>
          let r := propagateClean c fs src rel staged
          ⟨r.fs, r.installed, some staged, some staged⟩
        | ScannerM.ScanResult.infected _ =>
          ⟨handleInfected c fs src rel staged, [], some staged, some staged⟩
        | ScannerM.ScanResult.error =>
          if c.permissive then
            let r := propagateClean c fs src rel staged
            ⟨r.fs, r.installed, some staged, some staged⟩
          else ⟨handleInfected c fs src rel staged, [], some staged, some staged⟩
        | ScannerM.ScanResult.notFound => ⟨fs, [], some staged, some staged⟩

/-- The deletion loop of on_deleted and on_renamed: remove the relative path
from every producer other than the source that is not a diode producer. -/
def deleteFromPeers (c : Channel) (src : String) (rel : FPath) :
    List String → FS → FS
  | [], fs => fs
  | p :: rest, fs =>
    if p = src ∨ c.isDiode p then deleteFromPeers c src rel rest fs
    else deleteFromPeers c src rel rest (aerase fs (sharePath p rel))

/-- ChannelHandler::on_deleted (daemon.rs lines 371-435). -/
def onDeleted (c : Channel) (fs : FS) (src : String) (rel : FPath) : FS :=
  if ¬ isSafeRel rel then fs
  else if shouldIgnore c rel then fs
  else
    let fs₁ := deleteFromPeers c src rel c.producers fs
    if c.consumers.isEmpty then fs₁ else aerase fs₁ (exportPath rel)

/-- ChannelHandler::on_renamed (daemon.rs lines 437-529): validate both paths,
open the file at the new path, delete the old relative path from non-diode
peers and export, then propagate the opened file (no scan). -/
def onRenamed (c : Channel) (fs : FS) (src : String) (rel oldRel : FPath) :
    ModResult :=
  if ¬ isSafeRel rel ∨ ¬ isSafeRel oldRel then ⟨fs, [], none, none⟩
  else if shouldIgnore c rel then ⟨fs, [], none, none⟩
  else
    match alookup fs (sharePath src rel) with
    | none => ⟨fs, [], none, none⟩
    | some content =>
      let fs₁ := deleteFromPeers c src oldRel c.producers fs
      let fs₂ := if c.consumers.isEmpty then fs₁ else aerase fs₁ (exportPath oldRel)
      let r := propagateClean c fs₂ src rel content
      ⟨r.fs, r.installed, some content, none⟩

-- =============================================================================
-- Gate: atomic_reflink with explicit directories (daemon.rs lines 837-865)
-- =============================================================================

/-- A tree with an explicit directory set, to model parent creation. -/
structure DirFS where
  files : List (FPath × Content)
  dirs : List FPath
deriving Repr

/-- Every prefix of a path, shortest first (what create_dir_all creates,
together with the directories that already existed on the way). -/
def prefixList (p : FPath) : List FPath :=
  (List.range (p.length + 1)).map (fun i => p.take i)

/-- ChannelHandler::atomic_reflink: take the destination's parent (failing
only for an empty destination path), create_dir_all the parent, create a
temporary file in the parent (which requires the parent directory to exist),
clone the source bytes into it and rename it over the destination.
Permission and ownership bits are not part of this content model. -/
def atomicReflink (fs : DirFS) (src : Content) (dst : FPath) : Option DirFS :=
  if dst.isEmpty then none
  else
    let parent := dst.dropLast
    let withDirs : DirFS := ⟨fs.files, prefixList parent ++ fs.dirs⟩
    if parent ∈ withDirs.dirs then
      some ⟨ainsert withDirs.files dst src, withDirs.dirs⟩
    else none

end Gate

-- =============================================================================
-- Watcher: debounce, move pairing, skip cache, overflow (src/watcher.rs)
-- =============================================================================

namespace WatcherM

/-- Unique identifier for a file: device and inode. -/
abbrev FileId := Nat × Nat

abbrev FPath := List String

/-- A file awaiting debounce expiry (struct PendingEntry). -/
structure PendingEntry where
  path : FPath
  source : String
  deadline : Nat
deriving DecidableEq, Repr

/-- A MOVED_FROM waiting for its MOVED_TO (struct PendingMove). -/
structure PendingMove where
  oldPath : FPath
  source : String
  oldId : Option FileId
  expires : Nat
deriving DecidableEq, Repr

/-- Event kinds emitted by the watcher (enum FileEventKind). -/
inductive FileEventKind where
  | modified
  | deleted
  | renamed (oldPath : FPath)
deriving DecidableEq, Repr

/-- An emitted event (struct FileEvent). -/
structure FileEvent where
  path : FPath
  source : String
  kind : FileEventKind
deriving DecidableEq, Repr

/-- The watcher's mutable state. Times are naturals (milliseconds); the skip
cache is in LRU order, most recent first. The watch-descriptor table is
abstracted away: kernel events arrive with their source already resolved. -/
structure WatcherState where
  pending : List (FileId × PendingEntry)
  pendingByPath : List (FPath × FileId)
  pendingMoves : List (Nat × PendingMove)
  ready : List FileEvent
  skipCache : List (FileId × Int)
  maxPending : Nat
  debounce : Nat
deriving DecidableEq, Repr

/-- MOVE_COOKIE_TIMEOUT: two seconds. -/
def moveTimeout : Nat := 2000

/-- Plain (non-promoting) view of the skip cache, for stating properties. -/
def lruLookup (cache : List (FileId × Int)) (k : FileId) : Option Int :=
  alookup cache k

/-- LruCache::get: return the value and promote the entry to the front on a
hit; the cache is unchanged on a miss. -/
def lruGet (cache : List (FileId × Int)) (k : FileId) :
    Option Int × List (FileId × Int) :=
  match alookup cache k with
  | none => (none, cache)
  | some v => (some v, (k, v) :: aerase cache k)

/-- LruCache::put with capacity (Watcher::mark_written). -/
def lruPut (cap : Nat) (cache : List (FileId × Int)) (k : FileId) (v : Int) :
    List (FileId × Int) :=
  ((k, v) :: aerase cache k).take cap

/-- The inode whose pending entry has the smallest deadline (ties: first in
table order, matching min_by_key). -/
def oldestPending (l : List (FileId × PendingEntry)) : Option FileId :=
  (l.foldl (fun acc kv =>
    match acc with
    | none => some (kv.1, kv.2.deadline)
    | some prev => if kv.2.deadline < prev.2 then some (kv.1, kv.2.deadline) else acc)
    none).map (fun x => x.1)

/-- Watcher::force_process_oldest: remove the entry with the smallest deadline
and push it to the ready queue as a Modified event. -/
def forceProcessOldest (s : WatcherState) : WatcherState :=
  match oldestPending s.pending with
  | none => s
  | some fid =>
    match alookup s.pending fid with
    | none => s
    | some e =>
      { s with pending := aerase s.pending fid,
               pendingByPath := aerase s.pendingByPath e.path,
               ready := s.ready ++ [⟨e.path, e.source, FileEventKind.modified⟩] }

/-- Watcher::handle_modify: refresh an existing entry for the inode (updating
its path and deadline), or insert a new one after clearing any stale entry
that holds the same path under a different inode, forcing out the oldest
entry when the table is full. -/
def handleModify (now : Nat) (fid : FileId) (path : FPath) (src : String)
    (s : WatcherState) : WatcherState :=
  match alookup s.pending fid with
  | some e =>
    let byPath :=
      if e.path ≠ path then ainsert (aerase s.pendingByPath e.path) path fid
      else s.pendingByPath
    { s with pending := ainsert s.pending fid ⟨path, e.source, now + s.debounce⟩,
             pendingByPath := byPath }
  | none =>
    let s₁ :=
      match alookup s.pendingByPath path with
      | some oldId => { s with pending := aerase s.pending oldId,
                               pendingByPath := aerase s.pendingByPath path }
      | none => s
    let s₂ := if s₁.maxPending ≤ s₁.pending.length then forceProcessOldest s₁ else s₁
    { s₂ with pendingByPath := ainsert s₂.pendingByPath path fid,
              pending := ainsert s₂.pending fid ⟨path, src, now + s₂.debounce⟩ }

/-- Watcher::flush_expired: every pending entry whose deadline has passed is
removed from both indices and emitted as a Modified event. -/
def flushExpired (now : Nat) (s : WatcherState) : WatcherState :=
  (s.pending.filter (fun kv => kv.2.deadline ≤ now)).foldl
    (fun st kv =>
      { st with pending := aerase st.pending kv.1,
                pendingByPath := aerase st.pendingByPath kv.2.path,
                ready := st.ready ++ [⟨kv.2.path, kv.2.source, FileEventKind.modified⟩] })
    s

/-- Watcher::flush_expired_moves: every unmatched cookie past its expiry is
removed and emitted as a Deleted event for the old path. -/
def flushExpiredMoves (now : Nat) (s : WatcherState) : WatcherState :=
  (s.pendingMoves.filter (fun kv => kv.2.expires ≤ now)).foldl
    (fun st kv =>
      { st with pendingMoves := aerase st.pendingMoves kv.1,
                ready := st.ready ++ [⟨kv.2.oldPath, kv.2.source, FileEventKind.deleted⟩] })
    s

/-- A regular file found by the overflow rescan walk, with the stat data the
walk reads (the ctime is statted but never compared to the skip cache by
try_queue_file). -/
structure RescanFile where
  path : FPath
  source : String
  fid : FileId
  ctime : Int
deriving DecidableEq, Repr

/-- Watcher::try_queue_file: enqueue a regular file as if modified. The skip
cache is not consulted on this path. -/
def tryQueueFile (now : Nat) (f : RescanFile) (s : WatcherState) : WatcherState :=
  handleModify now f.fid f.path f.source s

/-- Watcher::handle_overflow: clear all pending tables and the ready queue,
then re-enqueue every regular file found under the registered roots (the
walk is supplied as an oracle). Backoff sleeping and overflow counters are
real-time behaviour and not part of the state model. -/
def handleOverflow (now : Nat) (files : List RescanFile) (s : WatcherState) :
    WatcherState :=
  files.foldl (fun st f => tryQueueFile now f st)
    { s with pending := [], pendingByPath := [], pendingMoves := [], ready := [] }

/-- A kernel event as dispatched by handle_inotify_event, with the results of
the stat calls the handler makes supplied as oracle data (none models a
failed stat, which the code treats as a silent drop). -/
inductive KernelEvent where
  | overflow (files : List RescanFile)
  | dirCreate (path : FPath)
  | dirOther
  | deleted (path : FPath) (source : String)
  | movedFrom (cookie : Nat) (path : FPath) (source : String) (statId : Option FileId)
  | movedTo (cookie : Nat) (path : FPath) (source : String) (stat : Option (FileId × Int))
  | closeWrite (path : FPath) (source : String) (stat : Option (FileId × Int))
deriving Repr

/-- Watcher::handle_inotify_event (watcher.rs lines 521-673): overflow
recovery; watch bookkeeping for new directories; immediate Deleted emission;
MOVED_FROM records a cookie (removing only the path index); MOVED_TO and
CLOSE_WRITE stat the file, drop the event when the skip cache holds the
inode with the same ctime (for MOVED_TO also discarding the cookie), and
otherwise pair the cookie (same inode pending: Deleted for the old path and
re-debounce; same inode already scanned: immediate Renamed; different inode:
Deleted for the old path then modification; no cookie: modification). -/
def handleEvent (now : Nat) (s : WatcherState) : KernelEvent → WatcherState
  | KernelEvent.overflow files => handleOverflow now files s
  | KernelEvent.dirCreate _ => s
  | KernelEvent.dirOther => s
  | KernelEvent.deleted path source =>
    let s₂ :=
      match alookup s.pendingByPath path with
      | some fid => { s with pending := aerase s.pending fid,
                             pendingByPath := aerase s.pendingByPath path }
      | none => s
    { s₂ with ready := s₂.ready ++ [⟨path, source, FileEventKind.deleted⟩] }
  | KernelEvent.movedFrom cookie path source statId =>
    { s with pendingByPath := aerase s.pendingByPath path,
             pendingMoves := ainsert s.pendingMoves cookie
               ⟨path, source, statId, now + moveTimeout⟩ }
  | KernelEvent.closeWrite path source stat =>
    match stat with
    | none => s
    | some (fid, ctime) =>
      let got := lruGet s.skipCache fid
      let s₂ := { s with skipCache := got.2 }
      if got.1 = some ctime then s₂
      else handleModify now fid path source s₂
  | KernelEvent.movedTo cookie path source stat =>
    match stat with
    | none => s
    | some (fid, ctime) =>
      let got := lruGet s.skipCache fid
      let s₂ := { s with skipCache := got.2 }
      if got.1 = some ctime then
        { s₂ with pendingMoves := aerase s₂.pendingMoves cookie }
      else
        match alookup s₂.pendingMoves cookie with
        | some pm =>
          let s₃ := { s₂ with pendingMoves := aerase s₂.pendingMoves cookie }
          if pm.oldId = some fid then
            match alookup s₃.pending fid with
            | some entry =>
              let s₄ := { s₃ with
                pending := aerase s₃.pending fid,
                pendingByPath := aerase s₃.pendingByPath entry.path,
                ready := s₃.ready ++ [⟨pm.oldPath, pm.source, FileEventKind.deleted⟩] }
              handleModify now fid path source s₄
            | none =>
              let s₄ :=
                match alookup s₃.pendingByPath path with
                | some oldId => { s₃ with pending := aerase s₃.pending oldId,
                                          pendingByPath := aerase s₃.pendingByPath path }
                | none => s₃
              { s₄ with ready := s₄.ready ++
                  [⟨path, source, FileEventKind.renamed pm.oldPath⟩] }
          else
            handleModify now fid path source
              { s₃ with ready := s₃.ready ++
                  [⟨pm.oldPath, pm.source, FileEventKind.deleted⟩] }
        | none => handleModify now fid path source s₂

/-- An event resolving a recorded move with the given old path: the Deleted
event for that path, or a Renamed event naming it as the old path. -/
def resolvesMove (old : FPath) (e : FileEvent) : Bool :=
  match e.kind with
  | FileEventKind.modified => false
  | FileEventKind.deleted => e.path = old
  | FileEventKind.renamed o => o = old

/-- How many events in a queue resolve a move with the given old path. -/
def resolvedCount (old : FPath) (l : List FileEvent) : Nat :=
  (l.filter (resolvesMove old)).length

end WatcherM

-- =============================================================================
-- Sync pass at the metadata level (src/gate/sync.rs)
-- =============================================================================

namespace SyncM

abbrev FPath := Gate.FPath

/-- The metadata the inventory scan records per file (struct FileInfo without
the absolute path, which in this model is the key itself). -/
structure Meta where
  mtime : Int
  size : Nat
deriving DecidableEq, Repr

/-- The channel tree at the metadata level: path to (mtime, size). -/
abbrev MFS := List (FPath × Meta)

/-- The inventory entries for one relative path, in producer configuration
order (scan_directory is called per producer in that order and appends). -/
def producerEntries (c : Gate.Channel) (fs : MFS) (rel : FPath) :
    List (String × Meta) :=
  c.producers.filterMap
    (fun p => (alookup fs (Gate.sharePath p rel)).map (fun m => (p, m)))

/-- Relative paths present in at least one producer subtree. -/
def producerRels (c : Gate.Channel) (fs : MFS) : List FPath :=
  (fs.filterMap (fun kv =>
    match kv.1 with
    | "share" :: p :: rel => if c.producers.contains p then some rel else none
    | _ => none)).dedup

/-- Relative paths present in export (scanned only when consumers exist). -/
def exportRels (c : Gate.Channel) (fs : MFS) : List FPath :=
  if c.consumers.isEmpty then []
  else (fs.filterMap (fun kv =>
    match kv.1 with
    | "export" :: rel => some rel
    | _ => none)).dedup

/-- Sync actions (enum SyncAction, identified by relative path). -/
inductive SyncAction where
  | triggerSync (source : String) (rel : FPath)
  | deleteStale (rel : FPath)
deriving DecidableEq, Repr

/-- max_by_key on mtime: the LAST entry with the maximal mtime wins, as for
the Rust iterator adapter. -/
def bestEntry : List (String × Meta) → Option (String × Meta)
  | [] => none
  | e :: t => some (t.foldl (fun acc x => if acc.2.mtime ≤ x.2.mtime then x else acc) e)

/-- producers_in_conflict: some later entry differs from the first in mtime
or size. -/
def inConflict : List (String × Meta) → Bool
  | [] => false
  | first :: rest =>
    rest.any (fun e => e.2.mtime ≠ first.2.mtime || e.2.size ≠ first.2.size)

/-- compute_producer_action (sync.rs lines 232-287). -/
def computeProducerAction (c : Gate.Channel) (fs : MFS) (rel : FPath) :
    Option SyncAction :=
  let entries := producerEntries c fs rel
  match bestEntry entries with
  | none => none
  | some best =>
    let conflict := inConflict entries
    let needsProducerSync := entries.length < c.producers.length
    let needsExportSync :=
      if c.consumers.isEmpty then false
      else
        match alookup fs (Gate.exportPath rel) with
        | none => true
        | some m => m.mtime ≠ best.2.mtime || m.size ≠ best.2.size
    if conflict || needsProducerSync || needsExportSync then
      some (SyncAction.triggerSync best.1 rel)
    else none

/-- compute_actions: a trigger per producer path that needs it, then a stale
delete per export path no producer holds. -/
def computeActions (c : Gate.Channel) (fs : MFS) : List SyncAction :=
  (producerRels c fs).filterMap (fun rel => computeProducerAction c fs rel)
    ++ (exportRels c fs).filterMap (fun rel =>
        if (producerEntries c fs rel).isEmpty then some (SyncAction.deleteStale rel)
        else none)

/-- The producer loop of propagate_clean at the metadata level: an installed
copy keeps the source size, but its mtime is the clone time (FICLONE marks
the destination modified and atomic_reflink sets no timestamps), supplied
here as the clock value now. -/
def installMetaToProducers (c : Gate.Channel) (src : String) (rel : FPath)
    (m : Meta) (now : Int) : List String → MFS → MFS
  | [], fs => fs
  | p :: rest, fs =>
    if p = src ∨ c.isDiode p then installMetaToProducers c src rel m now rest fs
    else
      let dst := Gate.sharePath p rel
      if c.isDiode src ∧ (alookup fs dst).isSome then
        installMetaToProducers c src rel m now rest fs
      else installMetaToProducers c src rel m now rest (ainsert fs dst ⟨now, m.size⟩)

/-- on_modified at the metadata level, for the synthetic events the sync pass
raises on a clean (or scan-disabled) channel: guard checks, then the
propagation of the source file to peers and export. -/
def onModifiedMeta (c : Gate.Channel) (fs : MFS) (src : String) (rel : FPath)
    (now : Int) : MFS :=
  if ¬ Gate.isSafeRel rel then fs
  else if Gate.shouldIgnore c rel then fs
  else
    match alookup fs (Gate.sharePath src rel) with
    | none => fs
    | some m =>
      let fs₁ := installMetaToProducers c src rel m now c.producers fs
      if c.consumers.isEmpty then fs₁
      else
        let dst := Gate.exportPath rel
        if c.isDiode src ∧ (alookup fs₁ dst).isSome then fs₁
        else ainsert fs₁ dst ⟨now, m.size⟩

/-- Execute one sync action (the run loop of sync::run, lines 99-116). -/
def applyAction (c : Gate.Channel) (now : Int) (fs : MFS) : SyncAction → MFS
  | SyncAction.triggerSync src rel => onModifiedMeta c fs src rel now
  | SyncAction.deleteStale rel => aerase fs (Gate.exportPath rel)

/-- One full sync pass at clock value now. -/
def syncRun (c : Gate.Channel) (now : Int) (fs : MFS) : MFS :=
  (computeActions c fs).foldl (applyAction c now) fs

end SyncM

-- =============================================================================
-- Concrete fixtures used by witnesses and counterexamples
-- =============================================================================

/-- A channel with two producers, one consumer, no diode, scanning off
(as used by sync-pass scenarios). -/
def chanPlain : Gate.Channel :=
  ⟨["a", "b"], ["c"], [], false, false, Gate.InfectedAction.delete, [], []⟩

/-- A channel whose producer a is a diode producer. -/
def chanDiode : Gate.Channel :=
  ⟨["a", "b"], ["c"], ["a"], true, false, Gate.InfectedAction.delete, [], []⟩

/-- A channel with two producers, one consumer, scanning enabled. -/
def chanScanning : Gate.Channel :=
  ⟨["a", "b"], ["c"], [], true, false, Gate.InfectedAction.delete, [], []⟩

/-- A tree whose producer a holds one file. -/
def mfsStart : SyncM.MFS := [(["share", "a", "f"], ⟨100, 5⟩)]

/-- The tree after the first sync pass at clock value 1000: the installed
copies carry mtime 1000, the source keeps mtime 100. -/
def mfsAfterFirst : SyncM.MFS := SyncM.syncRun chanPlain 1000 mfsStart

/-- A quiescent tree: both producers and export agree on (mtime, size). -/
def mfsQuiescent : SyncM.MFS :=
  [(["share", "a", "f"], ⟨100, 5⟩), (["share", "b", "f"], ⟨100, 5⟩),
   (["export", "f"], ⟨100, 5⟩)]

/-- A gate tree where producer a holds a nonempty file at relative path f. -/
def gfsStart : Gate.FS := [(["share", "a", "f"], [104, 105])]

/-- A gate tree where producer b and export already hold content at relative
path f (used against a diode source). -/
def wfsDiode : Gate.FS := [(["share", "b", "f"], [1]), (["export", "f"], [2])]

/-- A scanner that calls every byte string clean. -/
def cleanScan : Gate.Content → ScannerM.ScanResult :=
  fun _ => ScannerM.ScanResult.clean

/-- Watcher state with one skip-cache entry for inode (1,2) at ctime 5. -/
def wSkipStart : WatcherM.WatcherState := ⟨[], [], [], [], [((1, 2), 5)], 10000, 1000⟩

/-- The state after an overflow whose rescan finds the daemon-written file
(same inode, ctime equal to the cached one). -/
def wAfterOverflow : WatcherM.WatcherState :=
  WatcherM.handleEvent 0 wSkipStart
    (WatcherM.KernelEvent.overflow [⟨["f"], "a", (1, 2), 5⟩])

/-- Watcher state with a skip-cache entry for inode (7,9) at ctime 42. -/
def wMoveStart : WatcherM.WatcherState := ⟨[], [], [], [], [((7, 9), 42)], 10000, 1000⟩

/-- After MOVED_FROM cookie 5 for the old path. -/
def wAfterFrom : WatcherM.WatcherState :=
  WatcherM.handleEvent 0 wMoveStart
    (WatcherM.KernelEvent.movedFrom 5 ["old"] "a" (some (7, 9)))

/-- After the matching MOVED_TO, which the skip cache suppresses. -/
def wAfterTo : WatcherM.WatcherState :=
  WatcherM.handleEvent 1 wAfterFrom
    (WatcherM.KernelEvent.movedTo 5 ["new"] "a" (some ((7, 9), 42)))

-- =============================================================================
-- Association-list lemmas
-- =============================================================================

theorem alookup_aerase_ne {κ α : Type} [DecidableEq κ]
    (l : List (κ × α)) (k k₂ : κ) (h : k ≠ k₂) :
    alookup (aerase l k) k₂ = alookup l k₂ := by
  induction l with
  | nil => rfl
  | cons hd t ih =>
    obtain ⟨k₀, v⟩ := hd
    by_cases hk : k₀ = k
    · subst hk
      have : k₀ ≠ k₂ := h
      simp [aerase, alookup, this, ih]
    · have hne : k₂ ≠ k := fun e => h e.symm
      by_cases hk₂ : k₀ = k₂ <;> simp [aerase, alookup, hk, hk₂, hne, ih]

theorem alookup_aerase_self {κ α : Type} [DecidableEq κ]
    (l : List (κ × α)) (k : κ) : alookup (aerase l k) k = none := by
  induction l with
  | nil => rfl
  | cons hd t ih =>
    obtain ⟨k₀, v⟩ := hd
    by_cases hk : k₀ = k <;> simp [aerase, alookup, hk, ih]

theorem alookup_ainsert_self {κ α : Type} [DecidableEq κ]
    (l : List (κ × α)) (k : κ) (v : α) : alookup (ainsert l k v) k = some v := by
  simp [ainsert, alookup]

theorem alookup_ainsert_ne {κ α : Type} [DecidableEq κ]
    (l : List (κ × α)) (k k₂ : κ) (v : α) (h : k ≠ k₂) :
    alookup (ainsert l k v) k₂ = alookup l k₂ := by
  simp [ainsert, alookup, h, alookup_aerase_ne l k k₂ h]

theorem alookup_mem {κ α : Type} [DecidableEq κ]
    {l : List (κ × α)} {k : κ} {v : α} (h : alookup l k = some v) : (k, v) ∈ l := by
  induction l with
  | nil => simp [alookup] at h
  | cons hd t ih =>
    obtain ⟨k₀, v₀⟩ := hd
    by_cases hk : k₀ = k
    · subst hk
      simp only [alookup, if_pos rfl, if_true, Option.some.injEq, eq_self_iff_true] at h
      subst h
      exact List.mem_cons_self _ _
    · simp only [alookup, if_neg hk] at h
      exact List.mem_cons_of_mem _ (ih h)

-- =============================================================================
-- C10: connection cap (accept loop)
-- =============================================================================

namespace VProxy

/-- C10: when the vproxy is at its concurrent-connection cap, a newly accepted
connection is dropped immediately without any error response being written to
the guest: try_acquire_owned fails, the stream is dropped, and the accept
loop continues with unchanged state. -/
theorem accept_loop_rejects_at_cap (maxConn : Nat) (s : ProxyState)
    (h : maxConn ≤ s.active) :
    acceptConnection maxConn s = ⟨false, [], s⟩ := by
  have hlt : ¬ s.active < maxConn := by omega
  simp [acceptConnection, tryAcquire, hlt]

/-- C10 witness: at the default cap of 10 with all 10 permits held. -/
theorem accept_loop_rejects_at_cap_witness :
    acceptConnection 10 ⟨10⟩ = ⟨false, [], ⟨10⟩⟩ :=
  accept_loop_rejects_at_cap 10 ⟨10⟩ (by decide)

-- =============================================================================
-- C4: INSTREAM chunk and stream limits
-- =============================================================================

/-- C4 (amended): a chunk header above max_chunk_size, or a cumulative length
above max_stream_size, makes handle_instream abort the stream before
forwarding the offending header; NOTHING is written back to the guest on
these paths (the error is only logged by the connection task; only the
command-read timeout path ever sends a textual error), both connections are
closed when the task returns, and the semaphore permit is always released on
drop, restoring the acquisition state so a next connection succeeds. -/
theorem instream_limit_abort (maxChunk maxStream total fuel : Nat)
    (reply acc rest : Bytes) (b0 b1 b2 b3 : Nat) (maxConn : Nat)
    (s s₂ : ProxyState) :
    (maxChunk < be32 b0 b1 b2 b3 →
      runInstreamAux maxChunk maxStream reply (fuel + 1) total
          (b0 :: b1 :: b2 :: b3 :: rest) acc
        = ⟨StreamVerdict.chunkTooBig, acc, []⟩)
    ∧ (be32 b0 b1 b2 b3 ≤ maxChunk → maxStream < total + be32 b0 b1 b2 b3 →
      runInstreamAux maxChunk maxStream reply (fuel + 1) total
          (b0 :: b1 :: b2 :: b3 :: rest) acc
        = ⟨StreamVerdict.streamTooBig, acc, []⟩)
    ∧ (tryAcquire maxConn s = some s₂ →
        releasePermit s₂ = s ∧ (tryAcquire maxConn (releasePermit s₂)).isSome = true) := by
  refine ⟨fun h => ?_, fun h₁ h₂ => ?_, fun h => ?_⟩
  · simp [runInstreamAux, h]
  · have hnl : ¬ maxChunk < be32 b0 b1 b2 b3 := Nat.not_lt.mpr h₁
    simp [runInstreamAux, hnl, h₂]
  · obtain ⟨a⟩ := s
    by_cases hc : a < maxConn
    · simp only [tryAcquire, if_pos hc, Option.some.injEq] at h
      subst h
      refine ⟨rfl, ?_⟩
      simp [tryAcquire, releasePermit, hc]
    · simp [tryAcquire, if_neg hc] at h

/-- C4 witness: a 30 MiB header against the default 25 MiB chunk limit, and a
permit round-trip from an idle proxy. -/
theorem instream_limit_abort_witness :
    runInstreamAux 26214400 104857600 [] (4 + 1) 0 [1, 224, 0, 0] []
      = ⟨StreamVerdict.chunkTooBig, [], []⟩
    ∧ (releasePermit ⟨1⟩ = ⟨0⟩ ∧ (tryAcquire 10 (releasePermit ⟨1⟩)).isSome = true) :=
  ⟨(instream_limit_abort 26214400 104857600 0 4 [] [] [] 1 224 0 0 10 ⟨0⟩ ⟨1⟩).1
      (by decide),
   (instream_limit_abort 26214400 104857600 0 4 [] [] [] 1 224 0 0 10 ⟨0⟩ ⟨1⟩).2.2
      (by decide)⟩

/-- C4 counterexample: the claim says a textual error response such as the
chunk-size message is sent to the guest; in fact the abort path writes
nothing to the guest (toClient is empty) - the message text exists only in a
host-side log line. Header [1,224,0,0] declares 30 MiB; the default limit is
25 MiB. -/
theorem instream_limit_counterexample :
    runInstream defaultMaxChunk defaultMaxStream [] [1, 224, 0, 0]
      = ⟨StreamVerdict.chunkTooBig, [], []⟩
    ∧ be32 1 224 0 0 = 31457280
    ∧ defaultMaxChunk = 26214400 := by decide

-- =============================================================================
-- C3: command allowlist
-- =============================================================================

/-- C3 (amended): Command::parse succeeds exactly when the bytes up to and
including the first delimiter equal one of the six literals; but the
connection handler forwards to the scanner only when, additionally, a
non-INSTREAM command has no extra bytes after the delimiter in the same
buffer. Every rejected buffer gets the exact rejection line and the clamd
socket is never opened for it. -/
theorem command_allowlist_exact (buf : Bytes) :
    (Command.parse buf ≠ none ↔ ∃ lit ∈ allowedLiterals, delimPrefix buf = some lit)
    ∧ ((handleCommand buf).clamdOpened = true ↔
        ∃ c len, Command.parse buf = some (c, len)
          ∧ (c = Command.instream ∨ buf.drop len = []))
    ∧ ((handleCommand buf).clamdOpened = false →
        (handleCommand buf).reply = errNotAllowed
          ∧ (handleCommand buf).accepted = none) := by
  refine ⟨?_, ?_, ?_⟩
  · cases hfd : findDelim buf with
    | none => simp [Command.parse, delimPrefix, hfd]
    | some i =>
      simp only [Command.parse, delimPrefix, hfd, Option.map_some']
      by_cases h1 : buf.take (i + 1) = zInstreamTok ∨ buf.take (i + 1) = nInstreamTok
      · simp only [h1, if_true, if_pos]
        constructor
        · intro _
          rcases h1 with h | h <;>
            exact ⟨buf.take (i + 1), by simp [allowedLiterals, h], rfl⟩
        · intro _; simp
      · by_cases h2 : buf.take (i + 1) = zPingTok ∨ buf.take (i + 1) = nPingTok
        · simp only [h1, if_false, h2, if_true, if_pos]
          constructor
          · intro _
            rcases h2 with h | h <;>
              exact ⟨buf.take (i + 1), by simp [allowedLiterals, h], rfl⟩
          · intro _; simp
        · by_cases h3 : buf.take (i + 1) = zVersionTok ∨ buf.take (i + 1) = nVersionTok
          · simp only [h1, h2, h3, if_false, if_true, if_pos]
            constructor
            · intro _
              rcases h3 with h | h <;>
                exact ⟨buf.take (i + 1), by simp [allowedLiterals, h], rfl⟩
            · intro _; simp
          · simp only [h1, h2, h3, if_false]
            constructor
            · intro hcon; exact absurd rfl hcon
            · rintro ⟨lit, hmem, hlit⟩
              obtain rfl : buf.take (i + 1) = lit := Option.some.inj hlit
              simp only [allowedLiterals, List.mem_cons, List.not_mem_nil,
                or_false] at hmem
              rcases hmem with h | h | h | h | h | h
              · exact absurd (Or.inl h) h1
              · exact absurd (Or.inr h) h1
              · exact absurd (Or.inl h) h2
              · exact absurd (Or.inr h) h2
              · exact absurd (Or.inl h) h3
              · exact absurd (Or.inr h) h3
  · cases hp : Command.parse buf with
    | none =>
      simp only [handleCommand, hp]
      constructor
      · intro hfalse; simp at hfalse
      · rintro ⟨c₂, len₂, heq, _⟩; cases heq
    | some cl =>
      obtain ⟨c, len⟩ := cl
      simp only [handleCommand, hp]
      by_cases hc : c ≠ Command.instream ∧ buf.drop len ≠ []
      · rw [if_pos hc]
        constructor
        · intro hfalse; simp at hfalse
        · rintro ⟨c₂, len₂, heq, hok⟩
          obtain ⟨rfl, rfl⟩ : c = c₂ ∧ len = len₂ := by
            have h₂ := Option.some.inj heq
            exact ⟨congrArg Prod.fst h₂, congrArg Prod.snd h₂⟩
          rcases hok with h | h
          · exact absurd h hc.1
          · exact absurd h hc.2
      · rw [if_neg hc]
        constructor
        · intro _
          refine ⟨c, len, rfl, ?_⟩
          by_cases hinst : c = Command.instream
          · exact Or.inl hinst
          · rcases not_and_or.mp hc with h | h
            · exact absurd (not_not.mp h) hinst
            · exact Or.inr (not_not.mp h)
        · intro _; rfl
  · intro h
    cases hp : Command.parse buf with
    | none =>
      simp [handleCommand, hp]
    | some cl =>
      obtain ⟨c, len⟩ := cl
      simp only [handleCommand, hp] at h ⊢
      by_cases hc : c ≠ Command.instream ∧ buf.drop len ≠ []
      · rw [if_pos hc]
        exact ⟨rfl, rfl⟩
      · rw [if_neg hc] at h
        simp at h

/-- C3 witness: the denylisted shutdown command is rejected with the exact
error line and the scanner socket is never opened. -/
theorem command_allowlist_exact_witness :
    (handleCommand (asciiBytes "zSHUTDOWN\x00")).reply = errNotAllowed
    ∧ (handleCommand (asciiBytes "zSHUTDOWN\x00")).accepted = none :=
  (command_allowlist_exact (asciiBytes "zSHUTDOWN\x00")).2.2 (by decide)

/-- C3 counterexample: for the buffer zPING followed by the null delimiter and
one extra byte, the bytes up to and including the first delimiter equal the
whitelisted zPING literal, yet the command is rejected (with the
command-not-allowed reply, scanner never contacted) because extra bytes
follow a non-INSTREAM command - refuting acceptance being equivalent to the
delimiter-prefix check alone. -/
theorem command_allowlist_counterexample :
    delimPrefix (zPingTok ++ [120]) = some zPingTok
    ∧ zPingTok ∈ allowedLiterals
    ∧ handleCommand (zPingTok ++ [120]) = ⟨errNotAllowed, false, none⟩ := by
  decide

end VProxy

-- =============================================================================
-- C8: scanner response parsing
-- =============================================================================

namespace ScannerM

/-- C8 (amended): after stripping terminators and whitespace, parse_response
classifies by string SUFFIX, not by trailing token: Clean exactly when the
stripped line ends with the two characters of OK; Infected exactly when it
does not end with OK but ends with FOUND, the signature being the segment
after the last colon-space separator with trailing FOUND suffixes removed
(or the word unknown when no separator occurs); Error in every other case,
including lines ending in ERROR. -/
theorem parse_response_shapes (raw : List Char) :
    (parseResponse (stripResponse raw) = ScanResult.clean ↔
      endsWithL (stripResponse raw) ("OK".toList) = true)
    ∧ ((∃ s, parseResponse (stripResponse raw) = ScanResult.infected s) ↔
      (endsWithL (stripResponse raw) ("OK".toList) = false
        ∧ endsWithL (stripResponse raw) ("FOUND".toList) = true))
    ∧ (parseResponse (stripResponse raw) = ScanResult.error ↔
      (endsWithL (stripResponse raw) ("OK".toList) = false
        ∧ endsWithL (stripResponse raw) ("FOUND".toList) = false))
    ∧ (∀ s, parseResponse (stripResponse raw) = ScanResult.infected s →
      s = foundSignature (stripResponse raw)) := by
  generalize stripResponse raw = r
  cases hok : endsWithL r ("OK".toList) with
  | true =>
    refine ⟨?_, ?_, ?_, ?_⟩ <;>
    · simp only [parseResponse, hok]
      simp
  | false =>
    cases hfound : endsWithL r ("FOUND".toList) with
    | true =>
      refine ⟨?_, ?_, ?_, ?_⟩
      · simp only [parseResponse, hok, hfound]
        simp
      · simp only [parseResponse, hok, hfound]
        simp
      · simp only [parseResponse, hok, hfound]
        simp
      · intro s hs
        simp only [parseResponse, hok, hfound] at hs
        simp only [Bool.false_eq_true, if_false, if_true,
          ScanResult.infected.injEq] at hs
        exact hs.symm
    | false =>
      cases herr : endsWithL r ("ERROR".toList) with
      | true =>
        refine ⟨?_, ?_, ?_, ?_⟩ <;>
        · simp only [parseResponse, hok, hfound, herr]
          simp
      | false =>
        refine ⟨?_, ?_, ?_, ?_⟩ <;>
        · simp only [parseResponse, hok, hfound, herr]
          simp

/-- C8 witness: a standard infected line parses to the signature between the
separator and the FOUND suffix. -/
theorem parse_response_shapes_witness :
    ("Eicar-Test".toList)
      = foundSignature (stripResponse ("stream: Eicar-Test FOUND\n".toList)) :=
  (parse_response_shapes ("stream: Eicar-Test FOUND\n".toList)).2.2.2
    ("Eicar-Test".toList) (by decide)

/-- C8 counterexample: the response line BOOK (already stripped) ends with the
characters OK and is classified Clean, but its trailing token is BOOK, not
OK - refuting that the parse yields Clean exactly when the trailing token is
OK. -/
theorem parse_response_counterexample :
    stripResponse ("BOOK".toList) = ("BOOK".toList)
    ∧ parseResponse ("BOOK".toList) = ScanResult.clean
    ∧ trailingToken ("BOOK".toList) ≠ ("OK".toList) := by decide

end ScannerM

-- =============================================================================
-- C9: atomic_reflink creates missing parent directories
-- =============================================================================

namespace Gate

/-- C9: every install (peer propagation, export publication and quarantine all
go through atomic_reflink) first creates the missing parent directories of
the destination, so the install succeeds and the destination holds the
source bytes even when no intermediate directory existed beforehand. -/
theorem atomic_reflink_creates_parents (fs : DirFS) (src : Content) (dst : FPath)
    (h : dst ≠ []) :
    ∃ fs₂, atomicReflink fs src dst = some fs₂
      ∧ alookup fs₂.files dst = some src
      ∧ (∀ q ∈ prefixList dst.dropLast, q ∈ fs₂.dirs) := by
  have hne : dst.isEmpty = false := by
    cases dst with
    | nil => exact absurd rfl h
    | cons a t => rfl
  have hparent : dst.dropLast ∈ prefixList dst.dropLast ++ fs.dirs := by
    apply List.mem_append_left
    simp only [prefixList, List.mem_map, List.mem_range]
    exact ⟨dst.dropLast.length, Nat.lt_succ_self _, List.take_length _⟩
  refine ⟨⟨ainsert fs.files dst src, prefixList dst.dropLast ++ fs.dirs⟩, ?_, ?_, ?_⟩
  · simp only [atomicReflink, hne, Bool.false_eq_true, if_false]
    rw [if_pos hparent]
  · exact alookup_ainsert_self _ _ _
  · intro q hq
    exact List.mem_append_left _ hq

/-- C9 witness: installing into an empty tree at a nested relative path. -/
theorem atomic_reflink_creates_parents_witness :
    ∃ fs₂, atomicReflink ⟨[], []⟩ [7] ["share", "b", "sub", "f"] = some fs₂
      ∧ alookup fs₂.files ["share", "b", "sub", "f"] = some [7]
      ∧ (∀ q ∈ prefixList ((["share", "b", "sub", "f"] : FPath).dropLast),
          q ∈ fs₂.dirs) :=
  atomic_reflink_creates_parents ⟨[], []⟩ [7] ["share", "b", "sub", "f"] (by decide)

end Gate

-- =============================================================================
-- C7: sync-pass idempotence
-- =============================================================================

namespace SyncM

/-- C7 (amended): the sync pass is a no-op on a tree it already finds
consistent - when the first run computes no actions, it performs no writes
and an immediate second run computes no actions and performs no writes
either. It is NOT idempotent after a run that wrote: installs go through
atomic_reflink, which never sets timestamps (the clone marks the destination
modified), so first-run copies carry fresh mtimes, producers then disagree
on mtime, and the second run triggers writes again (see the
counterexample). -/
theorem sync_consistent_tree_idempotent (c : Gate.Channel) (now now₂ : Int)
    (fs : MFS) (h : computeActions c fs = []) :
    syncRun c now fs = fs
    ∧ computeActions c (syncRun c now fs) = []
    ∧ syncRun c now₂ (syncRun c now fs) = fs := by
  have h1 : ∀ t : Int, syncRun c t fs = fs := fun t => by
    simp [syncRun, h]
  refine ⟨h1 now, ?_, ?_⟩
  · rw [h1 now]; exact h
  · rw [h1 now, h1 now₂]

/-- C7 witness: a quiescent tree (both producers and export agree on mtime and
size) yields no actions, and rerunning changes nothing. -/
theorem sync_consistent_tree_idempotent_witness :
    syncRun chanPlain 1000 mfsQuiescent = mfsQuiescent
    ∧ computeActions chanPlain (syncRun chanPlain 1000 mfsQuiescent) = []
    ∧ syncRun chanPlain 2000 (syncRun chanPlain 1000 mfsQuiescent) = mfsQuiescent :=
  sync_consistent_tree_idempotent chanPlain 1000 2000 mfsQuiescent (by decide)

/-- C7 counterexample: start from a tree where only producer a holds file f
(mtime 100). The first sync run (clock 1000) installs copies with mtime 1000
into producer b and export, so the copies do NOT agree with the source on
mtime; the second run therefore computes a fresh trigger action and performs
writes, refuting second-run-performs-no-writes. -/
theorem sync_idempotence_counterexample :
    computeActions chanPlain mfsAfterFirst
      = [SyncAction.triggerSync "b" ["f"]]
    ∧ syncRun chanPlain 1001 mfsAfterFirst ≠ mfsAfterFirst := by decide

end SyncM

-- =============================================================================
-- C1 / C2: propagation lemmas
-- =============================================================================

namespace Gate

theorem propagateToProducers_preserves (c : Channel) (src : String) (rel : FPath)
    (staged : Content) (ps : List String) (fs : FS) (q : FPath)
    (h : alookup fs q = some staged) :
    alookup (propagateToProducers c src rel staged ps fs).fs q = some staged := by
  induction ps generalizing fs with
  | nil => simpa [propagateToProducers] using h
  | cons p rest ih =>
    by_cases h1 : p = src ∨ c.isDiode p
    · simpa [propagateToProducers, h1] using ih fs h
    · by_cases h2 : c.isDiode src ∧ (alookup fs (sharePath p rel)).isSome
      · simpa [propagateToProducers, h1, h2] using ih fs h
      · have hq : alookup (ainsert fs (sharePath p rel) staged) q = some staged := by
          by_cases he : sharePath p rel = q
          · rw [he]
            exact alookup_ainsert_self _ _ _
          · rw [alookup_ainsert_ne _ _ _ _ he]
            exact h
        simpa [propagateToProducers, h1, h2] using ih _ hq

theorem propagateToProducers_installed (c : Channel) (src : String) (rel : FPath)
    (staged : Content) (ps : List String) (fs : FS) :
    ∀ d ∈ (propagateToProducers c src rel staged ps fs).installed,
      alookup (propagateToProducers c src rel staged ps fs).fs d = some staged := by
  induction ps generalizing fs with
  | nil => simp [propagateToProducers]
  | cons p rest ih =>
    by_cases h1 : p = src ∨ c.isDiode p
    · simpa [propagateToProducers, h1] using ih fs
    · by_cases h2 : c.isDiode src ∧ (alookup fs (sharePath p rel)).isSome
      · simpa [propagateToProducers, h1, h2] using ih fs
      · intro d hd
        simp only [propagateToProducers, h1, h2, if_false, if_neg h1, if_neg h2,
          List.mem_cons] at hd ⊢
        rcases hd with rfl | hd
        · exact propagateToProducers_preserves c src rel staged rest _ _
            (alookup_ainsert_self _ _ _)
        · exact ih _ d hd

theorem propagateClean_installed (c : Channel) (fs : FS) (src : String)
    (rel : FPath) (staged : Content) :
    ∀ d ∈ (propagateClean c fs src rel staged).installed,
      alookup (propagateClean c fs src rel staged).fs d = some staged := by
  unfold propagateClean
  by_cases hcons : c.consumers.isEmpty
  · simp only [hcons, if_pos]
    exact propagateToProducers_installed c src rel staged c.producers fs
  · simp only [hcons, Bool.false_eq_true, if_false, if_neg]
    by_cases hdio : c.isDiode src ∧
        (alookup (propagateToProducers c src rel staged c.producers fs).fs
          (exportPath rel)).isSome
    · simp only [if_pos hdio]
      exact propagateToProducers_installed c src rel staged c.producers fs
    · simp only [if_neg hdio]
      intro d hd
      simp only [List.mem_cons] at hd
      rcases hd with rfl | hd
      · exact alookup_ainsert_self _ _ _
      · by_cases he : exportPath rel = d
        · rw [he]
          exact alookup_ainsert_self _ _ _
        · rw [alookup_ainsert_ne _ _ _ _ he]
          exact propagateToProducers_installed c src rel staged c.producers fs d hd

/-- C1: for every Modified event the handler publishes, the bytes installed at
every destination (peer share subtrees and, when consumers exist, the export
tree) equal the staged snapshot of the source taken before the scan, which
is exactly what the scanner received (the scanned field is none only on the
no-scan paths: empty file or scanning disabled); nothing is re-read from the
live source after the verdict. For Renamed events every install likewise
clones the already-observed file. -/
theorem modified_publishes_scanned_bytes (c : Channel)
    (scan : Content → ScannerM.ScanResult) (fs : FS) (src : String)
    (rel oldRel : FPath) :
    (∀ d ∈ (onModified c scan fs src rel).installed,
      ∃ b, (onModified c scan fs src rel).staged = some b
        ∧ alookup fs (sharePath src rel) = some b
        ∧ alookup (onModified c scan fs src rel).fs d = some b
        ∧ ((onModified c scan fs src rel).scanned = none
            ∨ (onModified c scan fs src rel).scanned = some b))
    ∧ (∀ d ∈ (onRenamed c fs src rel oldRel).installed,
      ∃ b, (onRenamed c fs src rel oldRel).staged = some b
        ∧ alookup fs (sharePath src rel) = some b
        ∧ alookup (onRenamed c fs src rel oldRel).fs d = some b) := by
  constructor
  · by_cases hsafe : isSafeRel rel
    · by_cases hig : shouldIgnore c rel
      · simp [onModified, hsafe, hig]
      · cases hsrc : alookup fs (sharePath src rel) with
        | none => simp [onModified, hsafe, hig, hsrc]
        | some content =>
          by_cases hempty : content.length = 0
          · simp only [onModified, hsafe, hig, hsrc, hempty, not_true,
              Bool.true_eq_false, if_false, if_true, if_pos, if_neg]
            intro d hd
            exact ⟨content, rfl, rfl,
              propagateClean_installed c fs src rel content d (by simpa using hd),
              Or.inl rfl⟩
          · by_cases hscan : c.scanningEnabled
            · cases hverdict : scan content with
              | clean =>
                simp only [onModified, hsafe, hig, hsrc, hempty, hscan, hverdict,
                  not_true, Bool.true_eq_false, if_false, if_true, if_pos, if_neg]
                intro d hd
                exact ⟨content, rfl, rfl,
                  propagateClean_installed c fs src rel content d (by simpa using hd),
                  Or.inr rfl⟩
              | infected sig =>
                simp [onModified, hsafe, hig, hsrc, hempty, hscan, hverdict]
              | error =>
                by_cases hperm : c.permissive
                · simp only [onModified, hsafe, hig, hsrc, hempty, hscan, hverdict,
                    hperm, not_true, Bool.true_eq_false, if_false, if_true,
                    if_pos, if_neg]
                  intro d hd
                  exact ⟨content, rfl, rfl,
                    propagateClean_installed c fs src rel content d (by simpa using hd),
                    Or.inr rfl⟩
                · simp [onModified, hsafe, hig, hsrc, hempty, hscan, hverdict, hperm]
              | notFound =>
                simp [onModified, hsafe, hig, hsrc, hempty, hscan, hverdict]
            · simp only [onModified, hsafe, hig, hsrc, hempty, hscan, not_true,
                Bool.true_eq_false, if_false, if_true, if_pos, if_neg,
                not_false_iff]
              intro d hd
              exact ⟨content, rfl, rfl,
                propagateClean_installed c fs src rel content d (by simpa using hd),
                Or.inl rfl⟩
    · simp [onModified, hsafe]
  · by_cases hA : isSafeRel rel
    · by_cases hB : isSafeRel oldRel
      · by_cases hig : shouldIgnore c rel
        · simp [onRenamed, hA, hB, hig]
        · cases hsrc : alookup fs (sharePath src rel) with
          | none => simp [onRenamed, hA, hB, hig, hsrc]
          | some content =>
            simp only [onRenamed, hA, hB, hig, hsrc, Bool.true_eq_false,
              not_true, if_false, if_true, if_pos, if_neg, or_self,
              Bool.false_eq_true, not_false_iff]
            intro d hd
            exact ⟨content, rfl, rfl,
              propagateClean_installed c _ src rel content d (by simpa using hd)⟩
      · simp [onRenamed, hB]
    · simp [onRenamed, hA]

/-- C1 witness: a clean two-byte file from producer a lands at producer b with
exactly the staged (and scanned) bytes. -/
theorem modified_publishes_scanned_bytes_witness :
    ∃ b, (onModified chanScanning cleanScan gfsStart "a" ["f"]).staged = some b
      ∧ alookup gfsStart (sharePath "a" ["f"]) = some b
      ∧ alookup (onModified chanScanning cleanScan gfsStart "a" ["f"]).fs
          ["share", "b", "f"] = some b
      ∧ ((onModified chanScanning cleanScan gfsStart "a" ["f"]).scanned = none
          ∨ (onModified chanScanning cleanScan gfsStart "a" ["f"]).scanned = some b) :=
  (modified_publishes_scanned_bytes chanScanning cleanScan gfsStart "a"
    ["f"] ["old"]).1 ["share", "b", "f"] (by decide)

theorem sharePath_inj {p D : String} {rel q : FPath}
    (h : sharePath p rel = sharePath D q) : p = D ∧ rel = q := by
  simpa [sharePath] using h

theorem exportPath_ne_sharePath (rel q : FPath) (D : String) :
    exportPath rel ≠ sharePath D q := by
  intro h
  simp [exportPath, sharePath] at h

theorem propagateToProducers_frame (c : Channel) (src : String) (rel : FPath)
    (staged : Content) (ps : List String) (fs : FS) (pth : FPath)
    (h : ∀ p ∈ ps, c.isDiode p = false → pth ≠ sharePath p rel) :
    alookup (propagateToProducers c src rel staged ps fs).fs pth
      = alookup fs pth := by
  induction ps generalizing fs with
  | nil => simp [propagateToProducers]
  | cons p rest ih =>
    have hrest : ∀ p₂ ∈ rest, c.isDiode p₂ = false → pth ≠ sharePath p₂ rel :=
      fun p₂ hp₂ => h p₂ (List.mem_cons_of_mem _ hp₂)
    by_cases h1 : p = src ∨ c.isDiode p
    · simpa [propagateToProducers, h1] using ih fs hrest
    · have hdp : c.isDiode p = false := Bool.eq_false_iff.mpr (not_or.mp h1).2
      have hne : pth ≠ sharePath p rel := h p (List.mem_cons_self _ _) hdp
      by_cases h2 : c.isDiode src ∧ (alookup fs (sharePath p rel)).isSome
      · simpa [propagateToProducers, h1, h2] using ih fs hrest
      · calc alookup (propagateToProducers c src rel staged (p :: rest) fs).fs pth
            = alookup (propagateToProducers c src rel staged rest
                (ainsert fs (sharePath p rel) staged)).fs pth := by
              simp [propagateToProducers, h1, h2]
          _ = alookup (ainsert fs (sharePath p rel) staged) pth := ih _ hrest
          _ = alookup fs pth :=
              alookup_ainsert_ne _ _ _ _ (fun e => hne e.symm)

theorem deleteFromPeers_frame (c : Channel) (src : String) (rel : FPath)
    (ps : List String) (fs : FS) (pth : FPath)
    (h : ∀ p ∈ ps, c.isDiode p = false → pth ≠ sharePath p rel) :
    alookup (deleteFromPeers c src rel ps fs) pth = alookup fs pth := by
  induction ps generalizing fs with
  | nil => simp [deleteFromPeers]
  | cons p rest ih =>
    have hrest : ∀ p₂ ∈ rest, c.isDiode p₂ = false → pth ≠ sharePath p₂ rel :=
      fun p₂ hp₂ => h p₂ (List.mem_cons_of_mem _ hp₂)
    by_cases h1 : p = src ∨ c.isDiode p
    · simpa [deleteFromPeers, h1] using ih fs hrest
    · have hdp : c.isDiode p = false := Bool.eq_false_iff.mpr (not_or.mp h1).2
      have hne : pth ≠ sharePath p rel := h p (List.mem_cons_self _ _) hdp
      calc alookup (deleteFromPeers c src rel (p :: rest) fs) pth
          = alookup (deleteFromPeers c src rel rest
              (aerase fs (sharePath p rel))) pth := by
            simp [deleteFromPeers, h1]
        _ = alookup (aerase fs (sharePath p rel)) pth := ih _ hrest
        _ = alookup fs pth := alookup_aerase_ne _ _ _ (fun e => hne e.symm)

theorem propagateToProducers_diode_preserve (c : Channel) (src : String)
    (rel : FPath) (staged : Content) (ps : List String) (fs : FS)
    (q : FPath) (v : Content) (hdio : c.isDiode src = true)
    (h : alookup fs q = some v) :
    alookup (propagateToProducers c src rel staged ps fs).fs q = some v := by
  induction ps generalizing fs with
  | nil => simpa [propagateToProducers] using h
  | cons p rest ih =>
    by_cases h1 : p = src ∨ c.isDiode p
    · simpa [propagateToProducers, h1] using ih fs h
    · by_cases h2 : c.isDiode src ∧ (alookup fs (sharePath p rel)).isSome
      · simpa [propagateToProducers, h1, h2] using ih fs h
      · have hnone : alookup fs (sharePath p rel) = none := by
          rcases not_and_or.mp h2 with hc | hs
          · exact absurd hdio hc
          · cases ho : alookup fs (sharePath p rel) with
            | none => rfl
            | some w => exact absurd (by simp [ho]) hs
        have hq : q ≠ sharePath p rel := by
          intro e
          rw [e, hnone] at h
          cases h
        have step : alookup (ainsert fs (sharePath p rel) staged) q = some v := by
          rw [alookup_ainsert_ne _ _ _ _ (fun e => hq e.symm)]
          exact h
        simpa [propagateToProducers, h1, h2] using ih _ step

theorem propagateClean_frame_shareD (c : Channel) (fs : FS) (src D : String)
    (rel q : FPath) (staged : Content) (hD : c.isDiode D = true) :
    alookup (propagateClean c fs src rel staged).fs (sharePath D q)
      = alookup fs (sharePath D q) := by
  have hframe : ∀ p ∈ c.producers, c.isDiode p = false →
      sharePath D q ≠ sharePath p rel := by
    intro p hp hdp heq
    obtain ⟨hDp, -⟩ := sharePath_inj heq
    rw [← hDp, hD] at hdp
    cases hdp
  simp only [propagateClean]
  by_cases hcons : c.consumers.isEmpty
  · simp only [hcons, if_true, if_pos]
    exact propagateToProducers_frame c src rel staged c.producers fs _ hframe
  · simp only [hcons, Bool.false_eq_true, if_false, if_neg]
    by_cases hdio : c.isDiode src ∧
        (alookup (propagateToProducers c src rel staged c.producers fs).fs
          (exportPath rel)).isSome
    · simp only [if_pos hdio]
      exact propagateToProducers_frame c src rel staged c.producers fs _ hframe
    · simp only [if_neg hdio]
      rw [alookup_ainsert_ne _ _ _ _ (exportPath_ne_sharePath rel q D)]
      exact propagateToProducers_frame c src rel staged c.producers fs _ hframe

theorem propagateClean_diode_preserve (c : Channel) (fs : FS) (src : String)
    (rel q : FPath) (staged v : Content) (hdio : c.isDiode src = true)
    (h : alookup fs q = some v) :
    alookup (propagateClean c fs src rel staged).fs q = some v := by
  have base : alookup (propagateToProducers c src rel staged c.producers fs).fs q
      = some v :=
    propagateToProducers_diode_preserve c src rel staged c.producers fs q v hdio h
  simp only [propagateClean]
  by_cases hcons : c.consumers.isEmpty
  · simp only [hcons, if_true, if_pos]
    exact base
  · simp only [hcons, Bool.false_eq_true, if_false, if_neg]
    by_cases hdio₂ : c.isDiode src ∧
        (alookup (propagateToProducers c src rel staged c.producers fs).fs
          (exportPath rel)).isSome
    · simp only [if_pos hdio₂]
      exact base
    · simp only [if_neg hdio₂]
      have hnone : alookup (propagateToProducers c src rel staged c.producers fs).fs
          (exportPath rel) = none := by
        rcases not_and_or.mp hdio₂ with hc | hs
        · exact absurd hdio hc
        · cases ho : alookup (propagateToProducers c src rel staged c.producers fs).fs
              (exportPath rel) with
          | none => rfl
          | some w => exact absurd (by simp [ho]) hs
      have hq : q ≠ exportPath rel := by
        intro e
        rw [e, hnone] at base
        cases base
      rw [alookup_ainsert_ne _ _ _ _ (fun e => hq e.symm)]
      exact base

theorem onDeleted_frame_shareD (c : Channel) (fs : FS) (src D : String)
    (rel q : FPath) (hD : c.isDiode D = true) :
    alookup (onDeleted c fs src rel) (sharePath D q)
      = alookup fs (sharePath D q) := by
  have hframe : ∀ p ∈ c.producers, c.isDiode p = false →
      sharePath D q ≠ sharePath p rel := by
    intro p hp hdp heq
    obtain ⟨hDp, -⟩ := sharePath_inj heq
    rw [← hDp, hD] at hdp
    cases hdp
  by_cases hA : isSafeRel rel
  · by_cases hig : shouldIgnore c rel
    · simp [onDeleted, hA, hig]
    · by_cases hcons : c.consumers.isEmpty
      · simp only [onDeleted, hA, hig, hcons, not_true, Bool.true_eq_false,
          if_false, if_true, if_pos, if_neg, Bool.false_eq_true, not_false_iff]
        exact deleteFromPeers_frame c src rel c.producers fs _ hframe
      · simp only [onDeleted, hA, hig, hcons, not_true, Bool.true_eq_false,
          if_false, if_true, if_pos, if_neg, Bool.false_eq_true, not_false_iff]
        rw [alookup_aerase_ne _ _ _ (fun e => (exportPath_ne_sharePath rel q D) e)]
        exact deleteFromPeers_frame c src rel c.producers fs _ hframe
  · simp [onDeleted, hA]

theorem onRenamed_frame_shareD (c : Channel) (fs : FS) (src D : String)
    (rel oldRel q : FPath) (hD : c.isDiode D = true) :
    alookup (onRenamed c fs src rel oldRel).fs (sharePath D q)
      = alookup fs (sharePath D q) := by
  have hframeOld : ∀ p ∈ c.producers, c.isDiode p = false →
      sharePath D q ≠ sharePath p oldRel := by
    intro p hp hdp heq
    obtain ⟨hDp, -⟩ := sharePath_inj heq
    rw [← hDp, hD] at hdp
    cases hdp
  by_cases hA : isSafeRel rel
  · by_cases hB : isSafeRel oldRel
    · by_cases hig : shouldIgnore c rel
      · simp [onRenamed, hA, hB, hig]
      · cases hsrc : alookup fs (sharePath src rel) with
        | none => simp [onRenamed, hA, hB, hig, hsrc]
        | some content =>
          simp only [onRenamed, hA, hB, hig, hsrc, not_true, Bool.true_eq_false,
            if_false, if_true, if_pos, if_neg, or_self, Bool.false_eq_true,
            not_false_iff]
          have hdel : alookup (deleteFromPeers c src oldRel c.producers fs)
              (sharePath D q) = alookup fs (sharePath D q) :=
            deleteFromPeers_frame c src oldRel c.producers fs _ hframeOld
          by_cases hcons : c.consumers.isEmpty
          · simp only [hcons, if_true, if_pos]
            rw [propagateClean_frame_shareD c _ src D rel q content hD]
            exact hdel
          · simp only [hcons, Bool.false_eq_true, if_false, if_neg]
            rw [propagateClean_frame_shareD c _ src D rel q content hD]
            rw [alookup_aerase_ne _ _ _ (fun e => (exportPath_ne_sharePath oldRel q D) e)]
            exact hdel
    · simp [onRenamed, hB]
  · simp [onRenamed, hA]

/-- C2: the propagation operations never install or remove content under a
diode producer's share subtree - the modify propagation (propagate_clean),
the rename propagation (on_renamed: old-path deletions plus reinstall) and
the delete propagation (on_deleted) all leave every path under share/D
unchanged for every diode producer D; and when the SOURCE producer is a
diode producer, propagation preserves every already-existing file at every
path, so a diode producer never overwrites an existing peer or export file.
(Outside the three propagation operations of the claim, on_modified's
infected handling may still delete or quarantine a diode producer's own
infected source file.) -/
theorem diode_producer_isolation (c : Channel) (fs : FS) (src D : String)
    (rel oldRel q : FPath) (staged v : Content) (hD : c.isDiode D = true) :
    (alookup (propagateClean c fs src rel staged).fs (sharePath D q)
      = alookup fs (sharePath D q))
    ∧ (alookup (onDeleted c fs src rel) (sharePath D q)
      = alookup fs (sharePath D q))
    ∧ (alookup (onRenamed c fs src rel oldRel).fs (sharePath D q)
      = alookup fs (sharePath D q))
    ∧ (c.isDiode src = true → alookup fs q = some v →
      alookup (propagateClean c fs src rel staged).fs q = some v) :=
  ⟨propagateClean_frame_shareD c fs src D rel q staged hD,
   onDeleted_frame_shareD c fs src D rel q hD,
   onRenamed_frame_shareD c fs src D rel oldRel q hD,
   fun hdio h => propagateClean_diode_preserve c fs src rel q staged v hdio h⟩

/-- C2 witness: on a channel whose producer a is a diode producer, propagating
from a leaves a's subtree untouched and never overwrites the existing peer
and export copies. -/
theorem diode_producer_isolation_witness :
    (alookup (propagateClean chanDiode wfsDiode "a" ["f"] [9]).fs
        (sharePath "a" ["g"]) = alookup wfsDiode (sharePath "a" ["g"]))
    ∧ alookup (propagateClean chanDiode wfsDiode "a" ["f"] [9]).fs
        ["export", "f"] = some [2]
    ∧ alookup (propagateClean chanDiode wfsDiode "a" ["f"] [9]).fs
        ["share", "b", "f"] = some [1] :=
  ⟨(diode_producer_isolation chanDiode wfsDiode "a" "a" ["f"] ["old"] ["g"]
      [9] [2] (by decide)).1,
   (diode_producer_isolation chanDiode wfsDiode "a" "a" ["f"] ["old"]
      ["export", "f"] [9] [2] (by decide)).2.2.2 (by decide) (by decide),
   (diode_producer_isolation chanDiode wfsDiode "a" "a" ["f"] ["old"]
      ["share", "b", "f"] [9] [1] (by decide)).2.2.2 (by decide) (by decide)⟩

end Gate

-- =============================================================================
-- C5 / C6: watcher lemmas
-- =============================================================================

namespace WatcherM

theorem forceProcessOldest_ready (s : WatcherState) :
    ∃ tail, (forceProcessOldest s).ready = s.ready ++ tail
      ∧ ∀ e ∈ tail, e.kind = FileEventKind.modified := by
  cases ho : oldestPending s.pending with
  | none => exact ⟨[], by simp [forceProcessOldest, ho], by simp⟩
  | some fid =>
    cases he : alookup s.pending fid with
    | none => exact ⟨[], by simp [forceProcessOldest, ho, he], by simp⟩
    | some e =>
      refine ⟨[⟨e.path, e.source, FileEventKind.modified⟩],
        by simp [forceProcessOldest, ho, he], ?_⟩
      intro ev hev
      simp only [List.mem_singleton] at hev
      rw [hev]

theorem forceProcessOldest_moves (s : WatcherState) :
    (forceProcessOldest s).pendingMoves = s.pendingMoves := by
  cases ho : oldestPending s.pending with
  | none => simp [forceProcessOldest, ho]
  | some fid =>
    cases he : alookup s.pending fid with
    | none => simp [forceProcessOldest, ho, he]
    | some e => simp [forceProcessOldest, ho, he]

theorem handleModify_pending_mem (now : Nat) (fid : FileId) (path : FPath)
    (src : String) (s : WatcherState) :
    alookup (handleModify now fid path src s).pending fid ≠ none := by
  cases he : alookup s.pending fid with
  | some e =>
    simp [handleModify, he, alookup_ainsert_self]
  | none =>
    cases hb : alookup s.pendingByPath path with
    | some oldId =>
      by_cases hcap : (if s.pending.length ≥ s.maxPending then True else False)
      all_goals simp [handleModify, he, hb, alookup_ainsert_self]
    | none =>
      simp [handleModify, he, hb, alookup_ainsert_self]

theorem handleModify_ready (now : Nat) (fid : FileId) (path : FPath)
    (src : String) (s : WatcherState) :
    ∃ tail, (handleModify now fid path src s).ready = s.ready ++ tail
      ∧ ∀ e ∈ tail, e.kind = FileEventKind.modified := by
  cases he : alookup s.pending fid with
  | some e => exact ⟨[], by simp [handleModify, he], by simp⟩
  | none =>
    simp only [handleModify, he]
    cases hb : alookup s.pendingByPath path with
    | some oldId =>
      simp only [hb]
      split
      · obtain ⟨tail, htail, hall⟩ := forceProcessOldest_ready
          ⟨aerase s.pending oldId, aerase s.pendingByPath path, s.pendingMoves,
            s.ready, s.skipCache, s.maxPending, s.debounce⟩
        exact ⟨tail, htail, hall⟩
      · exact ⟨[], by simp, by simp⟩
    | none =>
      simp only [hb]
      split
      · obtain ⟨tail, htail, hall⟩ := forceProcessOldest_ready s
        exact ⟨tail, htail, hall⟩
      · exact ⟨[], by simp, by simp⟩

theorem handleModify_moves (now : Nat) (fid : FileId) (path : FPath)
    (src : String) (s : WatcherState) :
    (handleModify now fid path src s).pendingMoves = s.pendingMoves := by
  cases he : alookup s.pending fid with
  | some e => simp [handleModify, he]
  | none =>
    simp only [handleModify, he]
    cases hb : alookup s.pendingByPath path with
    | some oldId =>
      simp only [hb]
      split
      · rw [forceProcessOldest_moves]
      · rfl
    | none =>
      simp only [hb]
      split
      · rw [forceProcessOldest_moves]
      · rfl

theorem alookup_aerase_none {κ α : Type} [DecidableEq κ]
    (l : List (κ × α)) (k k₂ : κ) (h : alookup l k = none) :
    alookup (aerase l k₂) k = none := by
  by_cases he : k₂ = k
  · rw [he]
    exact alookup_aerase_self l k
  · rw [alookup_aerase_ne l k₂ k he]
    exact h

theorem moveFold_ready (l : List (Nat × PendingMove)) (s : WatcherState) :
    (l.foldl (fun st kv =>
      { st with pendingMoves := aerase st.pendingMoves kv.1,
                ready := st.ready ++ [⟨kv.2.oldPath, kv.2.source, FileEventKind.deleted⟩] })
      s).ready
    = s.ready ++ l.map (fun kv => ⟨kv.2.oldPath, kv.2.source, FileEventKind.deleted⟩) := by
  induction l generalizing s with
  | nil => simp
  | cons kv t ih => simp [ih, List.append_assoc]

theorem moveFold_moves_none (l : List (Nat × PendingMove)) (s : WatcherState)
    (cookie : Nat)
    (h : cookie ∈ l.map Prod.fst ∨ alookup s.pendingMoves cookie = none) :
    alookup ((l.foldl (fun st kv =>
      { st with pendingMoves := aerase st.pendingMoves kv.1,
                ready := st.ready ++ [⟨kv.2.oldPath, kv.2.source, FileEventKind.deleted⟩] })
      s).pendingMoves) cookie = none := by
  induction l generalizing s with
  | nil =>
    rcases h with h | h
    · simp at h
    · simpa using h
  | cons kv t ih =>
    rcases h with h | h
    · simp only [List.map_cons, List.mem_cons] at h
      rcases h with h | h
      · apply ih
        right
        rw [h]
        exact alookup_aerase_self _ _
      · exact ih _ (Or.inl h)
    · apply ih
      right
      exact alookup_aerase_none _ _ _ h

theorem flushExpiredMoves_ready (now : Nat) (s : WatcherState) :
    (flushExpiredMoves now s).ready
      = s.ready ++ (s.pendingMoves.filter (fun kv => kv.2.expires ≤ now)).map
          (fun kv => ⟨kv.2.oldPath, kv.2.source, FileEventKind.deleted⟩) :=
  moveFold_ready _ s

theorem rescanFold_invariant (now : Nat) (files : List RescanFile)
    (st : WatcherState) (hm : st.pendingMoves = [])
    (hr : ∀ e ∈ st.ready, e.kind = FileEventKind.modified) :
    (files.foldl (fun acc f => tryQueueFile now f acc) st).pendingMoves = []
    ∧ ∀ e ∈ (files.foldl (fun acc f => tryQueueFile now f acc) st).ready,
        e.kind = FileEventKind.modified := by
  induction files generalizing st with
  | nil => exact ⟨hm, hr⟩
  | cons f t ih =>
    simp only [List.foldl_cons]
    apply ih
    · rw [tryQueueFile, handleModify_moves]
      exact hm
    · obtain ⟨tail, htail, hall⟩ := handleModify_ready now f.fid f.path f.source st
      rw [tryQueueFile, htail]
      intro e he
      rcases List.mem_append.mp he with he | he
      · exact hr e he
      · exact hall e he

theorem resolvedCount_append_modified (old : FPath) (l tail : List FileEvent)
    (h : ∀ e ∈ tail, e.kind = FileEventKind.modified) :
    resolvedCount old (l ++ tail) = resolvedCount old l := by
  unfold resolvedCount
  rw [List.filter_append]
  have : tail.filter (resolvesMove old) = [] := by
    rw [List.filter_eq_nil_iff]
    intro e he
    rw [resolvesMove, h e he]
    simp
  rw [this, List.append_nil]

theorem resolvedCount_append_one (old : FPath) (l : List FileEvent)
    (e : FileEvent) (h : resolvesMove old e = true) :
    resolvedCount old (l ++ [e]) = resolvedCount old l + 1 := by
  unfold resolvedCount
  rw [List.filter_append]
  simp [h]

/-- C5 (amended): on the kernel event paths (close-after-write and move-to) a
skip-cache entry whose recorded ctime equals the file's statted ctime
suppresses the event - the pending table and the ready queue are unchanged,
so no Modified event is emitted for that inode from these paths - and an
entry suppresses ONLY on ctime equality: with a missing or different cached
ctime the inode enters the pending table. The overflow rescan path, however,
enqueues files without consulting the skip cache (try_queue_file), so a
self-written file IS re-emitted after an overflow even when its cached ctime
still matches the file - see the counterexample. -/
theorem skip_cache_suppression (s : WatcherState) (now : Nat) (path : FPath)
    (src : String) (fid : FileId) (ctime : Int) (cookie : Nat) :
    (lruLookup s.skipCache fid = some ctime →
      ((handleEvent now s (KernelEvent.closeWrite path src (some (fid, ctime)))).ready
          = s.ready
        ∧ (handleEvent now s (KernelEvent.closeWrite path src (some (fid, ctime)))).pending
          = s.pending
        ∧ (handleEvent now s (KernelEvent.movedTo cookie path src (some (fid, ctime)))).ready
          = s.ready
        ∧ (handleEvent now s (KernelEvent.movedTo cookie path src (some (fid, ctime)))).pending
          = s.pending))
    ∧ (lruLookup s.skipCache fid ≠ some ctime →
      alookup (handleEvent now s
        (KernelEvent.closeWrite path src (some (fid, ctime)))).pending fid ≠ none) := by
  constructor
  · intro h
    have h₂ : alookup s.skipCache fid = some ctime := h
    have hg : lruGet s.skipCache fid
        = (some ctime, (fid, ctime) :: aerase s.skipCache fid) := by
      simp [lruGet, h₂]
    refine ⟨?_, ?_, ?_, ?_⟩ <;> simp [handleEvent, hg]
  · intro h
    have h₂ : alookup s.skipCache fid ≠ some ctime := h
    cases hc : alookup s.skipCache fid with
    | none =>
      have hg : lruGet s.skipCache fid = (none, s.skipCache) := by
        simp [lruGet, hc]
      simp only [handleEvent, hg]
      rw [if_neg (by simp)]
      exact handleModify_pending_mem now fid path src _
    | some c₂ =>
      have hne : c₂ ≠ ctime := fun e => h₂ (by rw [hc, e])
      have hg : lruGet s.skipCache fid
          = (some c₂, (fid, c₂) :: aerase s.skipCache fid) := by
        simp [lruGet, hc]
      simp only [handleEvent, hg]
      rw [if_neg (by simpa using hne)]
      exact handleModify_pending_mem now fid path src _

/-- C5 witness: suppression at a matching ctime, and enqueueing at a
mismatched one. -/
theorem skip_cache_suppression_witness :
    ((handleEvent 3 wSkipStart
        (KernelEvent.closeWrite ["f"] "a" (some ((1, 2), 5)))).ready
      = wSkipStart.ready
    ∧ (handleEvent 3 wSkipStart
        (KernelEvent.closeWrite ["f"] "a" (some ((1, 2), 5)))).pending
      = wSkipStart.pending
    ∧ (handleEvent 3 wSkipStart
        (KernelEvent.movedTo 9 ["f"] "a" (some ((1, 2), 5)))).ready
      = wSkipStart.ready
    ∧ (handleEvent 3 wSkipStart
        (KernelEvent.movedTo 9 ["f"] "a" (some ((1, 2), 5)))).pending
      = wSkipStart.pending)
    ∧ alookup (handleEvent 3 wSkipStart
        (KernelEvent.closeWrite ["f"] "a" (some ((1, 2), 6)))).pending (1, 2) ≠ none :=
  ⟨(skip_cache_suppression wSkipStart 3 ["f"] "a" (1, 2) 5 9).1 (by decide),
   (skip_cache_suppression wSkipStart 3 ["f"] "a" (1, 2) 6 9).2 (by decide)⟩

/-- C5 counterexample: the skip cache records inode (1,2) at ctime 5 and the
file's current ctime IS 5, yet after an overflow whose rescan finds that
file, the watcher enqueues it and (once the debounce deadline passes) emits
a Modified event for the inode - the rescan path never consults the cache,
refuting the claim for the overflow-rescan path. -/
theorem skip_cache_overflow_counterexample :
    lruLookup wSkipStart.skipCache (1, 2) = some 5
    ∧ wAfterOverflow.skipCache = [((1, 2), 5)]
    ∧ (flushExpired 1000 wAfterOverflow).ready
      = [⟨["f"], "a", FileEventKind.modified⟩] := by decide

end WatcherM

namespace WatcherM

/-- C6 (amended): a recorded MOVED_FROM cookie is resolved at most once, and
only along these paths: (a) if the cookie is still pending and expired when
the move table is flushed, it is removed and exactly a Deleted event for its
old path is emitted; (b) if the matching MOVED_TO is suppressed by the skip
cache, the cookie is silently discarded - NO Renamed and NO Deleted event is
ever emitted for it; (c) an overflow clears the pending-move table (and the
ready queue holds only rescan Modified events), likewise discarding cookies
without an event; (d) a matching un-suppressed MOVED_TO removes the cookie
and appends exactly one resolving event (a Renamed naming the old path, or a
Deleted of the old path). Cases (b) and (c) refute the original
never-neither claim - see the counterexample. -/
theorem move_cookie_resolution (s : WatcherState) (now : Nat) (cookie : Nat)
    (pm : PendingMove) (path : FPath) (src : String) (fid : FileId)
    (ctime : Int) (files : List RescanFile) :
    (alookup s.pendingMoves cookie = some pm → pm.expires ≤ now →
      alookup (flushExpiredMoves now s).pendingMoves cookie = none
        ∧ (⟨pm.oldPath, pm.source, FileEventKind.deleted⟩ : FileEvent)
            ∈ (flushExpiredMoves now s).ready)
    ∧ (lruLookup s.skipCache fid = some ctime →
      (handleEvent now s (KernelEvent.movedTo cookie path src
          (some (fid, ctime)))).ready = s.ready
        ∧ alookup (handleEvent now s (KernelEvent.movedTo cookie path src
            (some (fid, ctime)))).pendingMoves cookie = none)
    ∧ ((handleEvent now s (KernelEvent.overflow files)).pendingMoves = []
        ∧ ∀ e ∈ (handleEvent now s (KernelEvent.overflow files)).ready,
            e.kind = FileEventKind.modified)
    ∧ (lruLookup s.skipCache fid ≠ some ctime →
      alookup s.pendingMoves cookie = some pm →
      resolvedCount pm.oldPath (handleEvent now s (KernelEvent.movedTo cookie path src
          (some (fid, ctime)))).ready
        = resolvedCount pm.oldPath s.ready + 1
        ∧ alookup (handleEvent now s (KernelEvent.movedTo cookie path src
            (some (fid, ctime)))).pendingMoves cookie = none) := by
  refine ⟨?_, ?_, ?_, ?_⟩
  · intro hcookie hexp
    have hmemf : (cookie, pm) ∈ s.pendingMoves.filter (fun kv => kv.2.expires ≤ now) := by
      rw [List.mem_filter]
      exact ⟨alookup_mem hcookie, by simpa using hexp⟩
    constructor
    · unfold flushExpiredMoves
      apply moveFold_moves_none
      left
      exact List.mem_map_of_mem Prod.fst hmemf
    · rw [flushExpiredMoves_ready]
      apply List.mem_append_right
      exact List.mem_map.mpr ⟨(cookie, pm), hmemf, rfl⟩
  · intro h
    have h₂ : alookup s.skipCache fid = some ctime := h
    have hg : lruGet s.skipCache fid
        = (some ctime, (fid, ctime) :: aerase s.skipCache fid) := by
      simp [lruGet, h₂]
    constructor
    · simp [handleEvent, hg]
    · simp only [handleEvent, hg]
      simp only [↓reduceIte]
      exact alookup_aerase_self _ _
  · constructor
    · exact (rescanFold_invariant now files _ rfl (by simp)).1
    · exact (rescanFold_invariant now files _ rfl (by simp)).2
  · intro hnm hcookie
    have h₂ : alookup s.skipCache fid ≠ some ctime := hnm
    cases hc : alookup s.skipCache fid with
    | none =>
      have hg : lruGet s.skipCache fid = (none, s.skipCache) := by
        simp [lruGet, hc]
      simp only [handleEvent, hg]
      rw [if_neg (by simp)]
      simp only [hcookie]
      by_cases hsame : pm.oldId = some fid
      · rw [if_pos hsame]
        cases hp : alookup s.pending fid with
        | some entry =>
          simp only [hp]
          constructor
          · obtain ⟨tail, htail, hall⟩ := handleModify_ready now fid path src _
            rw [htail]
            rw [resolvedCount_append_modified _ _ _ hall]
            exact resolvedCount_append_one _ _ _ (by simp [resolvesMove])
          · rw [handleModify_moves]
            exact alookup_aerase_self _ _
        | none =>
          simp only [hp]
          cases hbp : alookup s.pendingByPath path with
          | some oldId =>
            simp only [hbp]
            constructor
            · exact resolvedCount_append_one _ _ _ (by simp [resolvesMove])
            · exact alookup_aerase_self _ _
          | none =>
            simp only [hbp]
            constructor
            · exact resolvedCount_append_one _ _ _ (by simp [resolvesMove])
            · exact alookup_aerase_self _ _
      · rw [if_neg hsame]
        constructor
        · obtain ⟨tail, htail, hall⟩ := handleModify_ready now fid path src _
          rw [htail]
          rw [resolvedCount_append_modified _ _ _ hall]
          exact resolvedCount_append_one _ _ _ (by simp [resolvesMove])
        · rw [handleModify_moves]
          exact alookup_aerase_self _ _
    | some c₂ =>
      have hne : c₂ ≠ ctime := fun e => h₂ (by rw [hc, e])
      have hg : lruGet s.skipCache fid
          = (some c₂, (fid, c₂) :: aerase s.skipCache fid) := by
        simp [lruGet, hc]
      simp only [handleEvent, hg]
      rw [if_neg (by simpa using hne)]
      simp only [hcookie]
      by_cases hsame : pm.oldId = some fid
      · rw [if_pos hsame]
        cases hp : alookup s.pending fid with
        | some entry =>
          simp only [hp]
          constructor
          · obtain ⟨tail, htail, hall⟩ := handleModify_ready now fid path src _
            rw [htail]
            rw [resolvedCount_append_modified _ _ _ hall]
            exact resolvedCount_append_one _ _ _ (by simp [resolvesMove])
          · rw [handleModify_moves]
            exact alookup_aerase_self _ _
        | none =>
          simp only [hp]
          cases hbp : alookup s.pendingByPath path with
          | some oldId =>
            simp only [hbp]
            constructor
            · exact resolvedCount_append_one _ _ _ (by simp [resolvesMove])
            · exact alookup_aerase_self _ _
          | none =>
            simp only [hbp]
            constructor
            · exact resolvedCount_append_one _ _ _ (by simp [resolvesMove])
            · exact alookup_aerase_self _ _
      · rw [if_neg hsame]
        constructor
        · obtain ⟨tail, htail, hall⟩ := handleModify_ready now fid path src _
          rw [htail]
          rw [resolvedCount_append_modified _ _ _ hall]
          exact resolvedCount_append_one _ _ _ (by simp [resolvesMove])
        · rw [handleModify_moves]
          exact alookup_aerase_self _ _

end WatcherM

namespace WatcherM

/-- C6 witness: an expired cookie resolves into exactly the Deleted event; a
skip-suppressed MOVED_TO discards the cookie with no event; an un-suppressed
matching MOVED_TO appends exactly one resolving event. -/
theorem move_cookie_resolution_witness :
    (alookup (flushExpiredMoves 2500 wAfterFrom).pendingMoves 5 = none
      ∧ (⟨["old"], "a", FileEventKind.deleted⟩ : FileEvent)
          ∈ (flushExpiredMoves 2500 wAfterFrom).ready)
    ∧ ((handleEvent 1 wAfterFrom (KernelEvent.movedTo 5 ["new"] "a"
          (some ((7, 9), 42)))).ready = wAfterFrom.ready
      ∧ alookup (handleEvent 1 wAfterFrom (KernelEvent.movedTo 5 ["new"] "a"
          (some ((7, 9), 42)))).pendingMoves 5 = none)
    ∧ (resolvedCount ["old"] (handleEvent 1 wAfterFrom (KernelEvent.movedTo 5 ["new"] "a"
          (some ((7, 9), 43)))).ready
        = resolvedCount ["old"] wAfterFrom.ready + 1
      ∧ alookup (handleEvent 1 wAfterFrom (KernelEvent.movedTo 5 ["new"] "a"
          (some ((7, 9), 43)))).pendingMoves 5 = none) :=
  ⟨(move_cookie_resolution wAfterFrom 2500 5 ⟨["old"], "a", some (7, 9), 2000⟩
      ["new"] "a" (7, 9) 42 []).1 (by decide) (by decide),
   (move_cookie_resolution wAfterFrom 1 5 ⟨["old"], "a", some (7, 9), 2000⟩
      ["new"] "a" (7, 9) 42 []).2.1 (by decide),
   (move_cookie_resolution wAfterFrom 1 5 ⟨["old"], "a", some (7, 9), 2000⟩
      ["new"] "a" (7, 9) 43 []).2.2.2 (by decide) (by decide)⟩

/-- C6 counterexample: a MOVED_FROM cookie is recorded, then the matching
MOVED_TO is suppressed by the skip cache (the daemon had written the file:
cached ctime 42 equals the statted ctime). The cookie is silently removed:
no Renamed and no Deleted event exists in the ready queue, and flushing the
move table long after the 2-second timeout emits nothing - so NEITHER event
is ever emitted for this recorded cookie, refuting never-neither. -/
theorem move_cookie_counterexample :
    alookup wAfterFrom.pendingMoves 5
      = some ⟨["old"], "a", some (7, 9), 2000⟩
    ∧ wAfterTo.ready = []
    ∧ wAfterTo.pendingMoves = []
    ∧ (flushExpiredMoves 1000000 wAfterTo).ready = []
    ∧ (flushExpired 1000000 wAfterTo).ready = [] := by decide

end WatcherM
